import Mathlib

/-!
Verification of the holiday-resolution engine of calendario-web-biplaza.

Shallow embedding of the Python sources under `src/`, with one Lean
definition per source function kept as close as possible to the code:

* `src/scrapers/utils/pascua.py` (Butcher/Meeus Easter algorithm),
* `src/scrapers/core/base_scraper.py` (fetching, validation, strategy chain),
* `src/scrapers/core/boe_scraper.py` (BOE strategy chain, CCAA table parse),
* `src/scrapers/discovery/boe_discovery.py` (tiered URL resolution + cache),
* `src/scrapers/orchestrator.py` (per-municipality aggregation),
* `src/utils/normalizer.py` (municipality name normalizer and fuzzy match).

Machine integers are `Nat`; Python dicts with optional keys are structures
of `Option` fields; network effects are passed in explicitly as oracle
functions and fetch counters; strings are processed as `List Char`.
-/

namespace Calendario

/-- Simple calendar date, mirroring Python `datetime.date` as used by
`pascua.py` (year, month, day). -/
structure PDate where
  year : Nat
  month : Nat
  day : Nat
deriving DecidableEq, Repr

/-- Gregorian leap-year rule, as implemented by Python `datetime`. -/
def isLeap (y : Nat) : Bool :=
  y % 4 == 0 && (y % 100 != 0 || y % 400 == 0)

/-- Number of days of month `m` of year `y` (Python `datetime` calendar). -/
def daysInMonth (y m : Nat) : Nat :=
  if m == 2 then (if isLeap y then 29 else 28)
  else if m == 4 || m == 6 || m == 9 || m == 11 then 30
  else 31

/-- One day earlier inside the same year (enough for Holy Week, which never
crosses January 1: Easter falls on March 22 .. April 25). -/
def predDay : PDate → PDate
  | ⟨y, m, d⟩ =>
    if 2 ≤ d then ⟨y, m, d - 1⟩
    else if 2 ≤ m then ⟨y, m - 1, daysInMonth y (m - 1)⟩
    else ⟨y, m, d⟩

/-- Subtraction of `n` days, modelling `date - timedelta(days=n)` on the
within-year range used by `pascua.py`. -/
def subDays (d : PDate) : Nat → PDate
  | 0 => d
  | n + 1 => predDay (subDays d n)

/-- Embedding of `calcular_pascua` (src/scrapers/utils/pascua.py lines 9-43),
the Butcher/Meeus computation of Easter Sunday.  All the intermediate
quantities are nonnegative on the documented domain (years 1583-4099), so
`Nat` arithmetic coincides with Python's. -/
def calcular_pascua (year : Nat) : PDate :=
  let a := year % 19
  let b := year / 100
  let c := year % 100
  let d := b / 4
  let e := b % 4
  let f := (b + 8) / 25
  let g := (b - f + 1) / 3
  let h := (19 * a + b - d - g + 15) % 30
  let i := c / 4
  let k := c % 4
  let l := (32 + 2 * e + 2 * i - h - k) % 7
  let m := (a + 11 * h + 22 * l) / 451
  let mes := (h + l - 7 * m + 114) / 31
  let dia := ((h + l - 7 * m + 114) % 31) + 1
  ⟨year, mes, dia⟩

/-- Embedding of `calcular_jueves_santo` (pascua.py lines 46-49):
Easter Sunday minus 3 days. -/
def calcular_jueves_santo (year : Nat) : PDate :=
  subDays (calcular_pascua year) 3

/-- Embedding of `calcular_viernes_santo` (pascua.py lines 52-55):
Easter Sunday minus 2 days. -/
def calcular_viernes_santo (year : Nat) : PDate :=
  subDays (calcular_pascua year) 2

/-- Python `str.lower` as a case-mapping table, restricted to the Latin
alphabet the scrapers handle: ASCII `A`-`Z` and the Latin-1 uppercase block
`À`-`Þ` (except `×`); every other character is unchanged. -/
def lowerPairs : List (Char × Char) :=
  [('A', 'a'), ('B', 'b'), ('C', 'c'), ('D', 'd'), ('E', 'e'), ('F', 'f'),
   ('G', 'g'), ('H', 'h'), ('I', 'i'), ('J', 'j'), ('K', 'k'), ('L', 'l'),
   ('M', 'm'), ('N', 'n'), ('O', 'o'), ('P', 'p'), ('Q', 'q'), ('R', 'r'),
   ('S', 's'), ('T', 't'), ('U', 'u'), ('V', 'v'), ('W', 'w'), ('X', 'x'),
   ('Y', 'y'), ('Z', 'z'),
   ('À', 'à'), ('Á', 'á'), ('Â', 'â'), ('Ã', 'ã'), ('Ä', 'ä'), ('Å', 'å'),
   ('Æ', 'æ'), ('Ç', 'ç'), ('È', 'è'), ('É', 'é'), ('Ê', 'ê'), ('Ë', 'ë'),
   ('Ì', 'ì'), ('Í', 'í'), ('Î', 'î'), ('Ï', 'ï'), ('Ð', 'ð'), ('Ñ', 'ñ'),
   ('Ò', 'ò'), ('Ó', 'ó'), ('Ô', 'ô'), ('Õ', 'õ'), ('Ö', 'ö'), ('Ø', 'ø'),
   ('Ù', 'ù'), ('Ú', 'ú'), ('Û', 'û'), ('Ü', 'ü'), ('Ý', 'ý'), ('Þ', 'þ')]

/-- Lowercase one character through the table. -/
def toLowerChar (c : Char) : Char :=
  ((lowerPairs.find? (fun p => p.1 == c)).map (fun p => p.2)).getD c

/-- Uppercase one character (Python `str.upper` on the same alphabet). -/
def toUpperChar (c : Char) : Char :=
  ((lowerPairs.find? (fun p => p.2 == c)).map (fun p => p.1)).getD c

/-- Python's whitespace class (`\s` in `re` on `str`, and `str.strip()`). -/
def pyIsSpace (c : Char) : Bool :=
  let n := c.toNat
  n == 0x20 || n == 0x9 || n == 0xA || n == 0xB || n == 0xC || n == 0xD ||
  n == 0x1C || n == 0x1D || n == 0x1E || n == 0x1F || n == 0x85 || n == 0xA0 ||
  n == 0x1680 || (0x2000 ≤ n && n ≤ 0x200A) || n == 0x2028 || n == 0x2029 ||
  n == 0x202F || n == 0x205F || n == 0x3000

/-- Lowercase a whole string (Python `str.lower()`). -/
def pyLower (s : String) : String :=
  ⟨s.toList.map toLowerChar⟩

/-- Outcome of `requests.get` plus the later processing steps inside
`fetch_content`: either the request raises (timeout, connection error), or a
response arrives with a status code, a `Content-Type` header, a text body,
and — when the body is handed to `pdfplumber` — either `none` (malformed
document, extraction raises) or the list of per-page `extract_text` results
(`none` for pages without text). -/
inductive FetchOutcome where
  | exn : FetchOutcome
  | resp (status : Nat) (contentType : String) (text : String)
      (pdfPages : Option (List (Option String))) : FetchOutcome
deriving DecidableEq, Repr

/-- Substring containment on character lists (Python's `needle in haystack`). -/
def containsSeq (p : List Char) : List Char → Bool
  | [] => p == []
  | c :: t => p.isPrefixOf (c :: t) || containsSeq p t

/-- The PDF sniff in `fetch_content`: `'application/pdf' in content_type` on
the lowercased header, or `url.lower().endswith('.pdf')`. -/
def isPdfResponse (url contentType : String) : Bool :=
  containsSeq "application/pdf".toList (pyLower contentType).toList
    || (".pdf".toList).isSuffixOf (pyLower url).toList

/-- Embedding of `BaseScraper.fetch_content`
(src/scrapers/core/base_scraper.py lines 329-365).  `raise_for_status`
raises for 4xx/5xx and the whole body is wrapped in `try/except` returning
`""`, so every failure path produces the empty string; a PDF response is
replaced by the newline-join of its truthy page texts. -/
def fetch_content (url : String) (r : FetchOutcome) : String :=
  match r with
  | .exn => ""
  | .resp status contentType text pdfPages =>
    if 400 ≤ status ∧ status < 600 then ""
    else if isPdfResponse url contentType then
      match pdfPages with
      | none => ""
      | some pages =>
        String.intercalate "\n" ((pages.filterMap id).filter (fun t => t ≠ ""))
    else text

/-- Failure classification demanded by the spec for the Content Fetcher. -/
inductive FetchErrorClass where
  | transient : FetchErrorClass
  | permanent : FetchErrorClass
deriving DecidableEq, Repr

/-- Specification-side fetcher, following the spec's words for the refinement
comparison with `fetch_content`: a failed retrieval must produce a
`FetchError` value — transient for timeouts/5xx, permanent for 4xx and
malformed binary content — distinguishable from any successful text. -/
def fetch_spec (url : String) (r : FetchOutcome) : Except FetchErrorClass String :=
  match r with
  | .exn => .error .transient
  | .resp status contentType text pdfPages =>
    if 500 ≤ status ∧ status < 600 then .error .transient
    else if 400 ≤ status ∧ status < 500 then .error .permanent
    else if isPdfResponse url contentType then
      match pdfPages with
      | none => .error .permanent
      | some pages =>
        .ok (String.intercalate "\n" ((pages.filterMap id).filter (fun t => t ≠ "")))
    else .ok text

/-- Failure condition of a retrieval, as enumerated by the claim: the request
raises, the status is 4xx/5xx, or the binary content cannot be extracted. -/
def fetchFailed (url : String) (r : FetchOutcome) : Bool :=
  match r with
  | .exn => true
  | .resp status contentType _ pdfPages =>
    (400 ≤ status && status < 600)
      || (isPdfResponse url contentType && pdfPages == none)

/-- Association-list lookup, modelling Python `dict` access. -/
def alistGet {α : Type} (m : List (String × α)) (k : String) : Option α :=
  (m.find? (fun p => p.1 == k)).map (fun p => p.2)

/-- Association-list update, modelling Python `dict` assignment. -/
def alistSet {α : Type} (m : List (String × α)) (k : String) (v : α) :
    List (String × α) :=
  if (m.find? (fun p => p.1 == k)).isSome then
    m.map (fun p => if p.1 == k then (k, v) else p)
  else m ++ [(k, v)]

/-- The hardcoded `KNOWN_URLS` table of `BOEAutoDiscovery`
(src/scrapers/discovery/boe_discovery.py lines 20-25). -/
def KNOWN_URLS : List (Nat × String) :=
  [(2026, "https://www.boe.es/diario_boe/txt.php?id=BOE-A-2025-21667"),
   (2025, "https://www.boe.es/diario_boe/txt.php?id=BOE-A-2024-21234"),
   (2024, "https://www.boe.es/diario_boe/txt.php?id=BOE-A-2023-22014")]

/-- Mutable state of `BOEAutoDiscovery`: the JSON cache of previously
discovered URLs, keyed by `str(year)`. -/
structure DiscoveryCache where
  cachedUrls : List (String × String)
deriving DecidableEq, Repr

/-- Network oracle for `BOEAutoDiscovery`: the outcome of `validate_url`
(which performs exactly one HTTP fetch per call) and of
`_try_auto_discovery` (which performs `discoverFetches` HTTP fetches). -/
structure DiscoveryWorld where
  validate : String → Nat → Bool
  discover : Nat → Option String
  discoverFetches : Nat → Nat

/-- Result of a `get_url` call: the resolved URL (`none` models the final
`ValueError`), the cache state afterwards, the number of HTTP fetches the
call performed, and how many times auto-discovery was run. -/
structure GetUrlResult where
  url : Option String
  state : DiscoveryCache
  fetches : Nat
  discoveryRuns : Nat
deriving Repr

/-- Embedding of `BOEAutoDiscovery._save_to_cache` (boe_discovery.py lines
46-63): store the discovered URL under key `str(year)`. -/
def save_to_cache (st : DiscoveryCache) (year : Nat) (url : String) :
    DiscoveryCache :=
  ⟨alistSet st.cachedUrls (toString year) url⟩

/-- Embedding of `BOEAutoDiscovery.get_url` (boe_discovery.py lines 65-117).
Tier 1: `KNOWN_URLS`, validated; tier 2: the JSON cache, validated; tier 3:
auto-discovery, validated and saved to the cache; otherwise `ValueError`
(modelled as `url = none`).  Note that both the Known and the Cached tier
call `validate_url`, which performs a network fetch. -/
def get_url (st : DiscoveryCache) (w : DiscoveryWorld) (year : Nat)
    (tryAutoDiscovery : Bool) : GetUrlResult :=
  let knownHit : Option String × Nat :=
    match (KNOWN_URLS.find? (fun p => p.1 == year)).map (fun p => p.2) with
    | some u => if w.validate u year then (some u, 1) else (none, 1)
    | none => (none, 0)
  match knownHit with
  | (some u, f1) => ⟨some u, st, f1, 0⟩
  | (none, f1) =>
    let cacheHit : Option String × Nat :=
      match alistGet st.cachedUrls (toString year) with
      | some u => if w.validate u year then (some u, 1) else (none, 1)
      | none => (none, 0)
    match cacheHit with
    | (some u, f2) => ⟨some u, st, f1 + f2, 0⟩
    | (none, f2) =>
      if tryAutoDiscovery then
        match w.discover year with
        | some u =>
          if w.validate u year then
            ⟨some u, save_to_cache st year u,
              f1 + f2 + w.discoverFetches year + 1, 1⟩
          else ⟨none, st, f1 + f2 + w.discoverFetches year + 1, 1⟩
        | none => ⟨none, st, f1 + f2 + w.discoverFetches year, 1⟩
      else ⟨none, st, f1 + f2, 0⟩

/-- The `municipios_aplicables` value of a scraped record: the Python code
stores either a plain string (`'Todos'`) or a list of island names. -/
inductive MunAplic where
  | str (s : String) : MunAplic
  | list (l : List String) : MunAplic
deriving DecidableEq, Repr

/-- A scraped holiday record: the Python `dict` with its optional keys.
`none` models an absent key (`festivo.get(...)` returning `None`). -/
structure Festivo where
  fecha : Option String := none
  fechaTexto : Option String := none
  descripcion : Option String := none
  tipo : Option String := none
  ambito : Option String := none
  sustituible : Option Bool := none
  year : Option Nat := none
  ccaa : Option String := none
  islas : Option String := none
  isla : Option String := none
  municipio : Option String := none
  municipiosAplicables : Option MunAplic := none
deriving DecidableEq, Repr

/-- Two-digit zero padding (Python `f"{n:02d}"`, keeping more digits). -/
def pad2 (n : Nat) : String :=
  if n < 10 then "0" ++ toString n else toString n

/-- Four-digit zero padding (Python `f"{n:04d}"` / `date.isoformat`). -/
def pad4 (n : Nat) : String :=
  if n < 10 then "000" ++ toString n
  else if n < 100 then "00" ++ toString n
  else if n < 1000 then "0" ++ toString n
  else toString n

/-- The ISO date string `f"{year}-{mes:02d}-{dia:02d}"` built by the
scrapers (year unpadded, exactly as in the Python f-string). -/
def formatFecha (year mes dia : Nat) : String :=
  toString year ++ "-" ++ pad2 mes ++ "-" ++ pad2 dia

/-- `date.isoformat()` (year zero-padded to four digits). -/
def isoFecha (d : PDate) : String :=
  pad4 d.year ++ "-" ++ pad2 d.month ++ "-" ++ pad2 d.day

/-- The `meses` dictionary of the scrapers in insertion order
(`enero` .. `diciembre`). -/
def mesesOrdered : List (String × Nat) :=
  [("enero", 1), ("febrero", 2), ("marzo", 3), ("abril", 4), ("mayo", 5),
   ("junio", 6), ("julio", 7), ("agosto", 8), ("septiembre", 9),
   ("octubre", 10), ("noviembre", 11), ("diciembre", 12)]

/-- The `meses_es` reverse dictionary (month number to Spanish name). -/
def mesesEs (n : Nat) : String :=
  ((mesesOrdered.find? (fun p => p.2 == n)).map (fun p => p.1)).getD ""

/-- The nine fixed national holidays (`festivos_fijos` /
`festivos_conocidos`, identical in boe_scraper.py lines 88-98 and
base_scraper.py lines 261-271), already turned into records. -/
def festivosFijos (year : Nat) : List Festivo :=
  [(1, "enero", "Año Nuevo", false),
   (6, "enero", "Epifanía del Señor", true),
   (1, "mayo", "Fiesta del Trabajo", false),
   (15, "agosto", "Asunción de la Virgen", true),
   (12, "octubre", "Fiesta Nacional de España", false),
   (1, "noviembre", "Todos los Santos", true),
   (6, "diciembre", "Día de la Constitución Española", false),
   (8, "diciembre", "Inmaculada Concepción", true),
   (25, "diciembre", "Natividad del Señor", false)].map
    (fun q =>
      { fecha := some (formatFecha year
          (((mesesOrdered.find? (fun p => p.1 == q.2.1)).map (fun p => p.2)).getD 0)
          q.1),
        fechaTexto := some (toString q.1 ++ " de " ++ q.2.1),
        descripcion := some q.2.2.1,
        tipo := some "nacional",
        ambito := some "nacional",
        sustituible := some q.2.2.2,
        year := some year })

/-- Matcher for the tail `\s+kw₁\s+kw₂…` of the Holy Week regexes: each
keyword must be preceded by at least one whitespace character. -/
def matchSpacedKeywords : List (List Char) → List Char → Bool
  | [], _ => true
  | kw :: rest, cs =>
    let sp := cs.takeWhile pyIsSpace
    !sp.isEmpty && kw.isPrefixOf (cs.drop sp.length)
      && matchSpacedKeywords rest ((cs.drop sp.length).drop kw.length)

/-- Leftmost match of the pattern `(\d{1,2})\s+kw₁\s+kw₂` (the
`patron_jueves` / `patron_viernes` regexes of
`BOEScraper._parse_patrones_conocidos`): returns the match start index and
the parsed one- or two-digit day, greedy on the digits. -/
def searchDiaKeywords (kw1 kw2 : List Char) : List Char → Nat → Option (Nat × Nat)
  | [], _ => none
  | c :: rest, idx =>
    let here : Option (Nat × Nat) :=
      if c.isDigit then
        match rest with
        | c2 :: rest2 =>
          if c2.isDigit && matchSpacedKeywords [kw1, kw2] rest2 then
            some (idx, 10 * (c.toNat - 48) + (c2.toNat - 48))
          else if matchSpacedKeywords [kw1, kw2] rest then
            some (idx, c.toNat - 48)
          else none
        | [] => none
      else none
    match here with
    | some r => some r
    | none => searchDiaKeywords kw1 kw2 rest (idx + 1)

/-- The `content_lower[max(0, idx-500):min(len, idx+500)]` context slice. -/
def contextSlice (cs : List Char) (idx : Nat) : List Char :=
  (cs.drop (idx - 500)).take (idx + 500 - (idx - 500))

/-- One Holy Week record of `BOEScraper._parse_patrones_conocidos`
(boe_scraper.py lines 122-204): find the day via the regex, pick the first
month name contained in the ±500-character context (dictionary order
`enero` first), fall back to April for day ≤ 15 and March otherwise. -/
def semanaSantaRecord (year : Nat) (lower : List Char) (kw1 kw2 : List Char)
    (desc : String) (sust : Bool) : List Festivo :=
  match searchDiaKeywords kw1 kw2 lower 0 with
  | none => []
  | some (idx, dia) =>
    let ctx := contextSlice lower idx
    let mesPar : Nat × String :=
      match mesesOrdered.find? (fun p => containsSeq p.1.toList ctx) with
      | some p => (p.2, p.1)
      | none => if dia ≤ 15 then (4, "abril") else (3, "marzo")
    [{ fecha := some (formatFecha year mesPar.1 dia),
       fechaTexto := some (toString dia ++ " de " ++ mesPar.2),
       descripcion := some desc,
       tipo := some "nacional",
       ambito := some "nacional",
       sustituible := some sust,
       year := some year }]

/-- Embedding of `BOEScraper._parse_patrones_conocidos` (boe_scraper.py
lines 80-205): the nine fixed holidays plus the Holy Week records found by
the two regexes on the lowercased content. -/
def boe_parse_patrones_conocidos (year : Nat) (content : List Char) :
    List Festivo :=
  let lower := content.map toLowerChar
  festivosFijos year
    ++ semanaSantaRecord year lower "jueves".toList "santo".toList
        "Jueves Santo" true
    ++ semanaSantaRecord year lower "viernes".toList "santo".toList
        "Viernes Santo" false

/-- Embedding of `BaseScraper._parse_patrones_conocidos` (base_scraper.py
lines 251-327): the nine fixed holidays plus the computed Holy Week dates;
the `try/except` around the computation only fails when `datetime.date`
rejects the year, i.e. outside 1..9999. -/
def base_parse_patrones_conocidos (year : Nat) (_content : List Char) :
    List Festivo :=
  festivosFijos year ++
    (if 1 ≤ year ∧ year ≤ 9999 then
      [{ fecha := some (isoFecha (calcular_jueves_santo year)),
         fechaTexto := some (toString (calcular_jueves_santo year).day ++ " de "
           ++ mesesEs (calcular_jueves_santo year).month),
         descripcion := some "Jueves Santo",
         tipo := some "nacional",
         ambito := some "nacional",
         sustituible := some true,
         year := some year },
       { fecha := some (isoFecha (calcular_viernes_santo year)),
         fechaTexto := some (toString (calcular_viernes_santo year).day ++ " de "
           ++ mesesEs (calcular_viernes_santo year).month),
         descripcion := some "Viernes Santo",
         tipo := some "nacional",
         ambito := some "nacional",
         sustituible := some false,
         year := some year }]
    else [])

/-- Embedding of `BOEScraper.parse_festivos` (boe_scraper.py lines 40-78).
The three HTML-dependent strategies (`parse_tabla_ccaa`,
`_parse_tabla_html`, `_parse_texto_patrones`) are passed in as their result
lists, since their input is parsed HTML; the chain logic and the
known-patterns strategy are embedded directly. -/
def boe_parse_festivos (year : Nat) (content : List Char)
    (tablaCcaa tablaHtml textoPatrones : List Festivo) : List Festivo :=
  if 2024 ≤ year ∧ tablaCcaa ≠ [] ∧ 9 ≤ tablaCcaa.length then tablaCcaa
  else
    let conocidos := boe_parse_patrones_conocidos year content
    if conocidos ≠ [] ∧ 9 ≤ conocidos.length then conocidos
    else if tablaHtml ≠ [] ∧ 9 ≤ tablaHtml.length then tablaHtml
    else if textoPatrones ≠ [] ∧ 9 ≤ textoPatrones.length then textoPatrones
    else if conocidos ≠ [] then conocidos
    else []

/-- Embedding of the default `BaseScraper.parse_festivos` (base_scraper.py
lines 83-110), with the two HTML-dependent strategies passed as results. -/
def base_parse_festivos (year : Nat) (content : List Char)
    (tablaHtml textoPatrones : List Festivo) : List Festivo :=
  if tablaHtml ≠ [] ∧ 8 ≤ tablaHtml.length then tablaHtml
  else if textoPatrones ≠ [] ∧ 8 ≤ textoPatrones.length then textoPatrones
  else
    let conocidos := base_parse_patrones_conocidos year content
    if conocidos ≠ [] then conocidos
    else []

/-- The strategy results of the BOE chain in declared priority order. -/
def boeTried (year : Nat) (content : List Char)
    (tablaCcaa tablaHtml textoPatrones : List Festivo) : List (List Festivo) :=
  (if 2024 ≤ year then [tablaCcaa] else [])
    ++ [boe_parse_patrones_conocidos year content, tablaHtml, textoPatrones]

/-- The strategy results of the base chain in declared priority order. -/
def baseTried (year : Nat) (content : List Char)
    (tablaHtml textoPatrones : List Festivo) : List (List Festivo) :=
  [tablaHtml, textoPatrones, base_parse_patrones_conocidos year content]

/-- First strategy result meeting the minimum yield. -/
def firstMeeting (n : Nat) (rs : List (List Festivo)) : Option (List Festivo) :=
  rs.find? (fun r => n ≤ r.length)

/-- Highest-yield result among those tried (first maximum). -/
def maxYield (rs : List (List Festivo)) : List Festivo :=
  rs.foldl (fun acc r => if acc.length < r.length then r else acc) []

/-- The `%m` component of `strptime` (regex `1[0-2]|0[1-9]|[1-9]`, in that
alternation order): parsed month and remaining input. -/
def parseMes : List Char → Option (Nat × List Char)
  | c0 :: c1 :: rest =>
    if c0 = '1' ∧ '0' ≤ c1 ∧ c1 ≤ '2' then some (10 + (c1.toNat - 48), rest)
    else if c0 = '0' ∧ '1' ≤ c1 ∧ c1 ≤ '9' then some (c1.toNat - 48, rest)
    else if '1' ≤ c0 ∧ c0 ≤ '9' then some (c0.toNat - 48, c1 :: rest)
    else none
  | [c0] => if '1' ≤ c0 ∧ c0 ≤ '9' then some (c0.toNat - 48, []) else none
  | [] => none

/-- The `%d` component of `strptime` (regex `3[01]|[12]\d|0[1-9]|[1-9]`). -/
def parseDia : List Char → Option (Nat × List Char)
  | c0 :: c1 :: rest =>
    if c0 = '3' ∧ (c1 = '0' ∨ c1 = '1') then some (30 + (c1.toNat - 48), rest)
    else if (c0 = '1' ∨ c0 = '2') ∧ c1.isDigit then
      some (10 * (c0.toNat - 48) + (c1.toNat - 48), rest)
    else if c0 = '0' ∧ '1' ≤ c1 ∧ c1 ≤ '9' then some (c1.toNat - 48, rest)
    else if '1' ≤ c0 ∧ c0 ≤ '9' then some (c0.toNat - 48, c1 :: rest)
    else none
  | [c0] => if '1' ≤ c0 ∧ c0 ≤ '9' then some (c0.toNat - 48, []) else none
  | [] => none

/-- Python `datetime.strptime(s, '%Y-%m-%d')` viewed as a validity check:
four year digits, a dash, the `%m` regex, a dash, the `%d` regex, nothing
left over, and a date `datetime` accepts (year at least 1, day within the
month). -/
def validYmd (s : String) : Bool :=
  match s.toList with
  | y1 :: y2 :: y3 :: y4 :: '-' :: rest =>
    if y1.isDigit && y2.isDigit && y3.isDigit && y4.isDigit then
      let y := (y1.toNat - 48) * 1000 + (y2.toNat - 48) * 100
        + (y3.toNat - 48) * 10 + (y4.toNat - 48)
      match parseMes rest with
      | some (m, '-' :: rest2) =>
        match parseDia rest2 with
        | some (d, []) => decide (1 ≤ y) && decide (d ≤ daysInMonth y m)
        | _ => false
      | _ => false
    else false
  | _ => false

/-- Embedding of `BaseScraper.validate_festivo` (base_scraper.py lines
403-427): the four required keys must be present and the date string must
parse as `%Y-%m-%d`. -/
def validate_festivo (f : Festivo) : Bool :=
  f.fecha.isSome && f.descripcion.isSome && f.tipo.isSome && f.ambito.isSome
    && validYmd (f.fecha.getD "")

/-- Embedding of step 4 of `BaseScraper.scrape` (base_scraper.py lines
458-465): the per-record validation loop.  Returns the kept records in
order together with the number of warning lines printed by
`validate_festivo` — exactly one per dropped record, the only diagnostics
the code emits for drops. -/
def scrape_validate : List Festivo → List Festivo × Nat
  | [] => ([], 0)
  | f :: rest =>
    let r := scrape_validate rest
    if validate_festivo f then (f :: r.1, r.2) else (r.1, r.2 + 1)

/-- Leading-digit run as a number (`int(match.group(1))`). -/
def digitsToNat (ds : List Char) : Nat :=
  ds.foldl (fun a c => 10 * a + (c.toNat - 48)) 0

/-- Strip trailing Python whitespace. -/
def dropTrailingSpace (cs : List Char) : List Char :=
  (cs.reverse.dropWhile pyIsSpace).reverse

/-- Python `str.strip()` on a character list. -/
def pyStripChars (cs : List Char) : List Char :=
  dropTrailingSpace (cs.dropWhile pyIsSpace)

/-- Embedding of `BOEScraper._mes_a_numero` (boe_scraper.py lines 488-495):
`meses.get(mes_nombre.lower(), 1)` — unrecognized names default to 1. -/
def mes_a_numero (mesNombre : String) : Nat :=
  (((mesesOrdered.find? (fun p => p.1 == pyLower mesNombre)).map
    (fun p => p.2))).getD 1

/-- The call `self._mes_a_numero(mes_actual)` with `mes_actual` still `None`
raises `AttributeError` (`None.lower()`), which the bare `except` turns into
`continue`; `none` models that raise. -/
def mes_a_numero_opt : Option String → Option Nat
  | none => none
  | some s => some (mes_a_numero s)

/-- The row regex `(\d+)\s+(.+?)\.?$` of `parse_tabla_ccaa` applied with
`re.match`: leading digits, at least one whitespace character, then a
lazily-matched description with at most one trailing dot stripped; the
description is returned already `.strip()`-ped as in the source. -/
def parseFechaCell (cs : List Char) : Option (Nat × String) :=
  let ds := cs.takeWhile Char.isDigit
  if ds.isEmpty then none
  else
    let rest := cs.drop ds.length
    let sp := rest.takeWhile pyIsSpace
    if sp.isEmpty then none
    else
      let t := rest.drop sp.length
      if t.isEmpty then
        if 2 ≤ sp.length then some (digitsToNat ds, "") else none
      else
        let g2 := if 2 ≤ t.length ∧ t.getLast? = some '.' then t.dropLast else t
        some (digitsToNat ds, ⟨pyStripChars g2⟩)

/-- One iteration of the row loop of `BOEScraper.parse_tabla_ccaa`
(boe_scraper.py lines 399-478), threading the `mes_actual` state and the
accumulated records.  A row is the list of its cell texts
(`get_text(strip=True)` of `th`/`td`), as produced by the HTML layer. -/
def tablaCcaaStep (year : Nat) (headersNormalized : List String)
    (ccaaFiltro : Option String) (st : Option String × List Festivo)
    (cells : List String) : Option String × List Festivo :=
  match cells with
  | [] => st
  | fechaCell :: restCells =>
    if cells.length == 20 && (cells.drop 1).all (fun c => c == "") then
      (some fechaCell, st.2)
    else
      match parseFechaCell fechaCell.toList with
      | none => st
      | some (dia, descripcion) =>
        match mes_a_numero_opt st.1 with
        | none => st
        | some mesNum =>
          let fecha := pad4 year ++ "-" ++ pad2 mesNum ++ "-" ++ pad2 dia
          let aplicables := ((headersNormalized.zip restCells).filter
            (fun p => p.2 ≠ "")).map (fun p => p.1)
          let tipoFestivo :=
            if aplicables.length = headersNormalized.length then "nacional"
            else "autonomico"
          let filtroActive := (ccaaFiltro.getD "") ≠ ""
          if filtroActive ∧ pyLower (ccaaFiltro.getD "") ∉ aplicables then st
          else
            let aplicables2 :=
              if filtroActive then [pyLower (ccaaFiltro.getD "")] else aplicables
            let mesTexto := pyLower (st.1.getD "")
            let fechaTexto := toString dia ++ " de " ++ mesTexto
            if tipoFestivo = "nacional" then
              (st.1, st.2 ++
                [{ fecha := some fecha, fechaTexto := some fechaTexto,
                   descripcion := some descripcion, tipo := some tipoFestivo,
                   ambito := some "nacional", sustituible := some false,
                   year := some year }])
            else
              (st.1, st.2 ++ aplicables2.map (fun c =>
                { fecha := some fecha, fechaTexto := some fechaTexto,
                  descripcion := some descripcion, tipo := some tipoFestivo,
                  ambito := some c, ccaa := some c, sustituible := some false,
                  year := some year }))

/-- Embedding of the row loop of `BOEScraper.parse_tabla_ccaa`
(boe_scraper.py lines 329-485); the `thead`/`tbody` extraction is supplied
as `headersNormalized` and `rows` since it is HTML parsing. -/
def parse_tabla_ccaa (year : Nat) (headersNormalized : List String)
    (ccaaFiltro : Option String) (rows : List (List String)) : List Festivo :=
  (rows.foldl (tablaCcaaStep year headersNormalized ccaaFiltro) (none, [])).2

/-- Stable insertion used to model Python `list.sort` (Timsort is stable):
`x` is placed before the first element it may precede. -/
def insertOrdered {α : Type} (keep : α → α → Bool) (x : α) : List α → List α
  | [] => [x]
  | y :: ys => if keep x y then x :: y :: ys else y :: insertOrdered keep x ys

/-- Stable sort: fold of `insertOrdered` (equal-key elements keep their
original relative order when `keep` is a `≤`-style comparison). -/
def stableSortBy {α : Type} (keep : α → α → Bool) (l : List α) : List α :=
  l.foldr (insertOrdered keep) []

/-- The sort key `lambda x: x['fecha']` of `get_festivos_municipio`. -/
def fechaKey (f : Festivo) : String :=
  f.fecha.getD ""

/-- Python's lexicographic string comparison (by code point), as used by
`list.sort` on the date keys. -/
def leChars : List Char → List Char → Bool
  | [], _ => true
  | _ :: _, [] => false
  | a :: as, b :: bs =>
    if a.toNat < b.toNat then true
    else if b.toNat < a.toNat then false
    else leChars as bs

/-- The autonomic-record filter of `CalendarioOrchestrator.get_festivos_municipio`
(orchestrator.py lines 130-138): keep a record if it is autonomic for all of
the Canary Islands, or insular with a truthy island whose
`municipios_aplicables` list contains that island. -/
def autoApplies (isla : Option String) (f : Festivo) : Bool :=
  if f.ambito == some "autonomico" && f.islas == some "Todas" then true
  else if f.ambito == some "insular" && (isla.getD "") != "" then
    match f.municipiosAplicables.getD (.list []) with
    | .list l => decide (isla.getD "" ∈ l)
    | .str _ => false
  else false

/-- The concatenation built by `get_festivos_municipio` before sorting:
national records, applicable autonomic records (Canarias only), and the
local records whose `municipio` equals the request. -/
def festivos_totales (ccaa : String) (nacionales autonomicos locales : List Festivo)
    (isla : Option String) (municipio : String) : List Festivo :=
  nacionales
    ++ (if ccaa == "canarias" then autonomicos.filter (autoApplies isla) else [])
    ++ locales.filter (fun f => f.municipio == some municipio)

/-- Embedding of `CalendarioOrchestrator.get_festivos_municipio`
(orchestrator.py lines 109-147).  The island of the municipality
(`get_isla_municipio`) is passed in as `isla`; `none` as a result models the
`KeyError` the final `sort(key=lambda x: x['fecha'])` would raise on a
record without a `fecha` key. -/
def get_festivos_municipio (ccaa : String)
    (nacionales autonomicos locales : List Festivo)
    (isla : Option String) (municipio : String) : Option (List Festivo) :=
  let tot := festivos_totales ccaa nacionales autonomicos locales isla municipio
  if tot.all (fun f => f.fecha.isSome) then
    some (stableSortBy
      (fun a b => leChars (fechaKey a).toList (fechaKey b).toList) tot)
  else none

/-- The claim's HolidaySet invariant: among the records that are local and
scoped to the requested municipality, no two share a date. -/
def localDupFree (municipio : String) (fs : List Festivo) : Prop :=
  (fs.filter (fun f => f.tipo == some "local" && f.municipio == some municipio)).Pairwise
    (fun a b => a.fecha ≠ b.fecha)

/-- A duplicated local record used to exhibit the missing deduplication. -/
def dupLocalSample : Festivo :=
  { fecha := some "2026-06-13", descripcion := some "San Antonio de Padua",
    tipo := some "local", ambito := some "local",
    municipio := some "AGAETE", year := some 2026 }

/-- Canonical decomposition table (NFD) for the Latin letters the
normalizer meets: each precomposed character maps to its base letter plus
one combining mark (U+0300 grave, U+0301 acute, U+0302 circumflex, U+0303
tilde, U+0308 diaeresis, U+0327 cedilla). -/
def nfdPairs : List (Char × Char × Char) :=
  [('à', 'a', '̀'), ('á', 'a', '́'), ('â', 'a', '̂'),
   ('ã', 'a', '̃'), ('ä', 'a', '̈'),
   ('è', 'e', '̀'), ('é', 'e', '́'), ('ê', 'e', '̂'),
   ('ë', 'e', '̈'),
   ('ì', 'i', '̀'), ('í', 'i', '́'), ('î', 'i', '̂'),
   ('ï', 'i', '̈'),
   ('ò', 'o', '̀'), ('ó', 'o', '́'), ('ô', 'o', '̂'),
   ('õ', 'o', '̃'), ('ö', 'o', '̈'),
   ('ù', 'u', '̀'), ('ú', 'u', '́'), ('û', 'u', '̂'),
   ('ü', 'u', '̈'),
   ('ñ', 'n', '̃'), ('ç', 'c', '̧'),
   ('À', 'A', '̀'), ('Á', 'A', '́'), ('Â', 'A', '̂'),
   ('Ã', 'A', '̃'), ('Ä', 'A', '̈'),
   ('È', 'E', '̀'), ('É', 'E', '́'), ('Ê', 'E', '̂'),
   ('Ë', 'E', '̈'),
   ('Ì', 'I', '̀'), ('Í', 'I', '́'), ('Î', 'I', '̂'),
   ('Ï', 'I', '̈'),
   ('Ò', 'O', '̀'), ('Ó', 'O', '́'), ('Ô', 'O', '̂'),
   ('Õ', 'O', '̃'), ('Ö', 'O', '̈'),
   ('Ù', 'U', '̀'), ('Ú', 'U', '́'), ('Û', 'U', '̂'),
   ('Ü', 'U', '̈'),
   ('Ñ', 'N', '̃'), ('Ç', 'C', '̧')]

/-- Decompose one character (`unicodedata.normalize('NFD', …)`). -/
def nfdChar (c : Char) : List Char :=
  match nfdPairs.find? (fun p => p.1 == c) with
  | some p => [p.2.1, p.2.2]
  | none => [c]

/-- NFD of a string as a character list. -/
def nfd (cs : List Char) : List Char :=
  (cs.map nfdChar).flatten

/-- Combining-mark test (`unicodedata.category(char) == 'Mn'` on this
alphabet: the combining diacritical marks block). -/
def isMn (c : Char) : Bool :=
  0x300 ≤ c.toNat && c.toNat ≤ 0x36F

/-- The filter of `MunicipioNormalizer.remove_accents`
(src/utils/normalizer.py lines 40-52): keep a character when its category
is not `Mn` or it is one of `ñ Ñ ç Ç` — the intended preservation list. -/
def keepChar (c : Char) : Bool :=
  !isMn c || c ∈ ['ñ', 'Ñ', 'ç', 'Ç']

/-- Recomposition of a base character and a following mark (NFC). -/
def composeChar (b m : Char) : Option Char :=
  (nfdPairs.find? (fun p => p.2.1 == b && p.2.2 == m)).map (fun p => p.1)

/-- NFC combining walk: `b` is the pending base character, combined with
the marks that follow it. -/
def nfcAux (b : Char) : List Char → List Char
  | [] => [b]
  | m :: rest =>
    match composeChar b m with
    | some c => nfcAux c rest
    | none => b :: nfcAux m rest

/-- NFC of a character list (`unicodedata.normalize('NFC', …)`): combine a
base with the mark that follows it. -/
def nfc : List Char → List Char
  | [] => []
  | c :: rest => nfcAux c rest

/-- Embedding of `MunicipioNormalizer.remove_accents` (normalizer.py lines
40-52): NFD, drop the characters failing the keep condition, NFC. -/
def remove_accents (cs : List Char) : List Char :=
  nfc ((nfd cs).filter keepChar)

/-- The article alternation of the comma-inversion regex
`^(.+?),\s+(el|la|los|las|els|les|l'|d')$`. -/
def commaArticles : List (List Char) :=
  ["el", "la", "los", "las", "els", "les", "l\x27", "d\x27"].map String.toList

/-- Match the tail `\s+(article)$` after the comma, case-insensitively;
returns the article text in its original case (`match.group(2)`). -/
def matchCommaTail (cs : List Char) : Option (List Char) :=
  let sp := cs.takeWhile pyIsSpace
  if sp.isEmpty then none
  else
    let t := cs.drop sp.length
    if commaArticles.any (fun a => (t.map toLowerChar) == a) then some t
    else none

/-- Lazy leftmost search for the comma split of the inversion regex: the
prefix (`.+?`) must be nonempty and may not contain a newline (`.` does not
match `\n`); the first comma whose tail matches wins. -/
def commaSearch (acc rem : List Char) : Option (List Char × List Char) :=
  match rem with
  | [] => none
  | c :: rest =>
    if c = ',' ∧ ¬acc.isEmpty then
      match matchCommaTail rest with
      | some art => some (acc.reverse, art)
      | none => commaSearch (c :: acc) rest
    else if c = '\n' then none
    else commaSearch (c :: acc) rest

/-- Python `str.capitalize`: first character uppercased, the rest
lowercased. -/
def pyCapitalize : List Char → List Char
  | [] => []
  | c :: rest => toUpperChar c :: rest.map toLowerChar

/-- Embedding of `MunicipioNormalizer.resolve_comma_inversion`
(normalizer.py lines 54-77): `"Ejido, el" → "El Ejido"`, keeping the
apostrophe articles glued. -/
def resolve_comma_inversion (cs : List Char) : List Char :=
  match commaSearch [] cs with
  | none => cs
  | some (pre, art) =>
    let base := pyStripChars pre
    let artStr := pyStripChars art
    let artCap := pyCapitalize artStr
    if (artStr.map toLowerChar) ∈ ["l\x27".toList, "d\x27".toList] then
      artCap ++ base
    else artCap ++ (' ' :: base)

/-- The article list `ARTICULOS['es'] + ARTICULOS['ca']` iterated by
`normalize_search` (normalizer.py lines 23-29 and 158), duplicates
included. -/
def searchArticles : List (List Char) :=
  ["el", "la", "los", "las", "el", "la", "els", "les", "l\x27", "d\x27"].map
    String.toList

/-- One `re.sub(f"^{art}\\s+", '', s, flags=IGNORECASE)` step: when the
string starts with the article followed by whitespace, the article and the
whole whitespace run are removed. -/
def stripArticleOnce (art : List Char) (cs : List Char) : List Char :=
  if (cs.take art.length).map toLowerChar == art then
    let rest := cs.drop art.length
    let sp := rest.takeWhile pyIsSpace
    if sp.isEmpty then cs else rest.drop sp.length
  else cs

/-- The article-stripping loop of `normalize_search`. -/
def stripLeadingArticles (cs : List Char) : List Char :=
  searchArticles.foldl (fun s a => stripArticleOnce a s) cs

/-- The whitespace-collapsing `re.sub(r'\s+', ' ', …)`: every maximal
whitespace run becomes a single space (`prevSpace` tracks an open run). -/
def collapseAux (prevSpace : Bool) : List Char → List Char
  | [] => []
  | c :: rest =>
    if pyIsSpace c then
      if prevSpace then collapseAux true rest
      else ' ' :: collapseAux true rest
    else c :: collapseAux false rest

/-- The final `re.sub(r'\s+', ' ', nombre).strip()` of `normalize_search`. -/
def collapseSpaces (cs : List Char) : List Char :=
  pyStripChars (collapseAux false cs)

/-- Embedding of `MunicipioNormalizer.normalize_search` (normalizer.py
lines 136-165): empty in, empty out; otherwise strip, resolve the comma
inversion, lowercase, remove accents, strip leading articles, collapse
whitespace. -/
def normalize_search (cs : List Char) : List Char :=
  if cs.isEmpty then []
  else
    collapseSpaces (stripLeadingArticles (remove_accents
      ((resolve_comma_inversion (pyStripChars cs)).map toLowerChar)))

/-- String-level wrapper of `normalize_search`. -/
def normalizeSearchStr (s : String) : String :=
  ⟨normalize_search s.toList⟩

/-- A character left fixed by every character-level stage of
`normalize_search`: lowercase-stable, NFD-atomic, not a combining mark. -/
def stableChar (c : Char) : Bool :=
  (toLowerChar c == c) && (nfdChar c == [c]) && !isMn c

/-- Shape invariant of collapsed text: every whitespace character is a
plain space and no space follows an open space run. -/
def spacesOKAux (prevSpace : Bool) : List Char → Bool
  | [] => true
  | c :: r =>
    if pyIsSpace c then (c == ' ') && !prevSpace && spacesOKAux true r
    else spacesOKAux false r

/-- One row of the indel (insert/delete) edit-distance dynamic program:
`(b, pj)` pairs a character of the second string with the previous row's
entry above the new cell; `pjm1` is the previous row's entry diagonally
left, `newjm1` the entry just computed. -/
def rowAux (a : Char) : List (Char × Nat) → Nat → Nat → List Nat
  | [], _, _ => []
  | (b, pj) :: rest, pjm1, newjm1 =>
    let newj := if a = b then pjm1 else 1 + min pj newjm1
    newj :: rowAux a rest pj newj

/-- Next row of the DP table for one character of the first string. -/
def nextRow (a : Char) (bs : List Char) (prev : List Nat) : List Nat :=
  match prev with
  | [] => []
  | p0 :: prest => (p0 + 1) :: rowAux a (bs.zip prest) p0 (p0 + 1)

/-- Indel distance (Levenshtein with insertions and deletions only), the
metric underlying `rapidfuzz.fuzz.ratio`. -/
def indelDist (as bs : List Char) : Nat :=
  (as.foldl (fun row a => nextRow a bs row) (List.range (bs.length + 1))).getLastD 0

/-- An exact rational score `num/den`, avoiding floating point: models the
value of `fuzz.ratio` (a normalized similarity in [0, 100]). -/
structure ScoreQ where
  num : Nat
  den : Nat
deriving DecidableEq, Repr

/-- `fuzz.ratio` of two strings: `100 * (|a| + |b| - dist) / (|a| + |b|)`,
with the empty-empty case scored 100. -/
def fuzzScore (a b : List Char) : ScoreQ :=
  if a.isEmpty && b.isEmpty then ⟨100, 1⟩
  else ⟨100 * (a.length + b.length - indelDist a b), a.length + b.length⟩

/-- Rational comparison `s ≤ t` by cross-multiplication. -/
def scoreLe (s t : ScoreQ) : Bool :=
  s.num * t.den ≤ t.num * s.den

/-- Rational comparison `t ≤ s` against an integer threshold. -/
def scoreAtLeast (s : ScoreQ) (t : Nat) : Bool :=
  t * s.den ≤ s.num

/-- The score both chain branches assign to a candidate: the ratio of the
normalized query and the normalized candidate. -/
def scoreOf (q c : List Char) : ScoreQ :=
  fuzzScore (normalize_search q) (normalize_search c)

/-- First index of an element (`list.index(x)` in Python; the call sites
guarantee presence). -/
def indexOfFirst (l : List (List Char)) (x : List Char) : Nat :=
  match l with
  | [] => 0
  | c :: r => if c == x then 0 else indexOfFirst r x + 1

/-- Embedding of `MunicipioNormalizer.fuzzy_match` (normalizer.py lines
167-219), rapidfuzz branch (the one taken when rapidfuzz is installed):
normalize the query and all candidates, score with `fuzz.ratio`, let
`process.extract` return the `limit` best matches (sorted by score, equal
scores keeping input order), filter by threshold, and map each match back
to the first original candidate with that normalized form
(`candidates[candidates_normalized.index(match[0])]`). -/
def fuzzy_match (query : List Char) (candidates : List (List Char))
    (threshold : Nat) (limit : Nat) : List (List Char × ScoreQ) :=
  if query.isEmpty || candidates.isEmpty then []
  else
    let qn := normalize_search query
    let cn := candidates.map normalize_search
    let scored := cn.map (fun c => (c, fuzzScore qn c))
    let results := (stableSortBy (fun p q => scoreLe q.2 p.2) scored).take limit
    (results.filter (fun m => scoreAtLeast m.2 threshold)).map
      (fun m => (candidates.getD (indexOfFirst cn m.1) [], m.2))

/-- Embedding of `MunicipioNormalizer.find_best_match` (normalizer.py lines
221-239): the single best fuzzy match, or `none`. -/
def find_best_match (query : List Char) (candidates : List (List Char))
    (threshold : Nat) : Option (List Char) :=
  match fuzzy_match query candidates threshold 1 with
  | m :: _ => some m.1
  | [] => none

/-- C1 counterexample: for 2026, whose literal Easter Sunday is April 5, the
two days immediately preceding it are April 3 and April 4, but the computed
pair `(calcular_jueves_santo 2026, calcular_viernes_santo 2026)` is
(April 2, April 3), so it is not that pair in either order. -/
theorem festivos_moviles_2026_not_days_immediately_before_easter :
    (calcular_jueves_santo 2026, calcular_viernes_santo 2026)
      = (⟨2026, 4, 2⟩, ⟨2026, 4, 3⟩)
    ∧ (calcular_jueves_santo 2026, calcular_viernes_santo 2026)
      ≠ ((⟨2026, 4, 3⟩ : PDate), (⟨2026, 4, 4⟩ : PDate))
    ∧ (calcular_jueves_santo 2026, calcular_viernes_santo 2026)
      ≠ ((⟨2026, 4, 4⟩ : PDate), (⟨2026, 4, 3⟩ : PDate)) := by
  refine ⟨by decide, by decide, by decide⟩

/-- C1 amended: for every reference year in {2024, 2025, 2026, 2027} the
computed Easter Sunday equals the fixed literal (2024-03-31, 2025-04-20,
2026-04-05, 2027-03-28), and the movable-feast pair is (Easter minus 3 days,
Easter minus 2 days) — Maundy Thursday and Good Friday — so for 2026 the
pair equals (2026-04-02, 2026-04-03). -/
theorem festivos_moviles_reference_years :
    calcular_pascua 2024 = ⟨2024, 3, 31⟩
    ∧ calcular_pascua 2025 = ⟨2025, 4, 20⟩
    ∧ calcular_pascua 2026 = ⟨2026, 4, 5⟩
    ∧ calcular_pascua 2027 = ⟨2027, 3, 28⟩
    ∧ (calcular_jueves_santo 2024, calcular_viernes_santo 2024)
        = (⟨2024, 3, 28⟩, ⟨2024, 3, 29⟩)
    ∧ (calcular_jueves_santo 2025, calcular_viernes_santo 2025)
        = (⟨2025, 4, 17⟩, ⟨2025, 4, 18⟩)
    ∧ (calcular_jueves_santo 2026, calcular_viernes_santo 2026)
        = (⟨2026, 4, 2⟩, ⟨2026, 4, 3⟩)
    ∧ (calcular_jueves_santo 2027, calcular_viernes_santo 2027)
        = (⟨2027, 3, 25⟩, ⟨2027, 3, 26⟩) := by
  decide

/-- C2 counterexample: `fetch_content` maps an HTTP 500 failure and a
successful fetch of empty text to the same plain-string result `""` — there
is no `FetchError` value and the failure is not distinguishable from a
success — whereas the claimed contract (`fetch_spec`) separates them. -/
theorem fetch_content_failure_not_distinguishable :
    fetch_content "http://boe.es/doc" (.resp 500 "text/html" "oops" none) = ""
    ∧ fetch_content "http://boe.es/doc" (.resp 200 "text/html" "" none) = ""
    ∧ fetch_spec "http://boe.es/doc" (.resp 500 "text/html" "oops" none)
        = .error .transient
    ∧ fetch_spec "http://boe.es/doc" (.resp 200 "text/html" "" none) = .ok "" := by
  refine ⟨rfl, rfl, rfl, rfl⟩

/-- C2 amended: every failed retrieval (timeout/exception, HTTP 4xx or 5xx,
or malformed/unextractable binary content) makes `fetch_content` return the
empty string: the exception is swallowed, no transient/permanent
classification exists, and the caller's only failure signal is emptiness,
which a successful fetch of empty content also produces. -/
theorem fetch_content_failures_return_empty (url : String) (r : FetchOutcome)
    (h : fetchFailed url r = true) : fetch_content url r = "" := by
  cases r with
  | exn => rfl
  | resp status contentType text pdfPages =>
    by_cases hst : 400 ≤ status ∧ status < 600
    · simp only [fetch_content, if_pos hst]
    · have hp : isPdfResponse url contentType = true ∧ pdfPages = none := by
        simp only [fetchFailed, Bool.or_eq_true, Bool.and_eq_true,
          decide_eq_true_eq, beq_iff_eq] at h
        rcases h with h1 | h2
        · exact absurd ⟨h1.1, h1.2⟩ hst
        · exact h2
      rcases hp with ⟨hp1, hp2⟩
      subst hp2
      simp [fetch_content, hst, hp1]

/-- C2 amended, witness: the theorem applied to a concrete 404 response. -/
theorem fetch_content_failures_return_empty_witness :
    fetchFailed "http://boe.es/doc" (.resp 404 "text/html" "not found" none) = true
    ∧ fetch_content "http://boe.es/doc" (.resp 404 "text/html" "not found" none) = "" :=
  ⟨by decide,
   fetch_content_failures_return_empty "http://boe.es/doc"
     (.resp 404 "text/html" "not found" none) (by decide)⟩

/-- Reading back the key just written into an association list. -/
theorem alistGet_alistSet {α : Type} (m : List (String × α)) (k : String)
    (v : α) : alistGet (alistSet m k v) k = some v := by
  unfold alistSet
  by_cases h : (m.find? (fun p => p.1 == k)).isSome = true
  · rw [if_pos h]
    induction m with
    | nil => simp [List.find?] at h
    | cons p t ih =>
      by_cases hp : (p.1 == k) = true
      · simp [alistGet, List.find?, hp]
      · have hp' : (p.1 == k) = false := Bool.eq_false_iff.mpr hp
        have hstep : List.find? (fun p => p.1 == k) (p :: t)
            = List.find? (fun p => p.1 == k) t := by
          simp [List.find?, hp']
        rw [hstep] at h
        have := ih h
        simpa [alistGet, List.map_cons, hp', List.find?] using this
  · rw [if_neg h]
    induction m with
    | nil => simp [alistGet, List.find?]
    | cons p t ih =>
      by_cases hp : (p.1 == k) = true
      · exfalso
        apply h
        simp [List.find?, hp]
      · have hp' : (p.1 == k) = false := Bool.eq_false_iff.mpr hp
        have hstep : List.find? (fun p => p.1 == k) (p :: t)
            = List.find? (fun p => p.1 == k) t := by
          simp [List.find?, hp']
        rw [hstep] at h
        have := ih h
        simpa [alistGet, List.cons_append, List.find?, hp'] using this

/-- C3 counterexample: with an always-validating network and a discoverable
URL for 2030 (a year with no Known entry), the first `get_url` resolves via
the Discover tier and caches the URL; the immediately following call returns
the identical URL via the Cached tier but performs one network fetch (the
`validate_url` re-check of the cached URL), not zero as the claim states. -/
theorem get_url_cached_tier_still_fetches :
    (get_url ((get_url ⟨[]⟩
        ⟨fun _ _ => true,
         fun y => if y == 2030 then some "https://www.boe.es/diario_boe/txt.php?id=BOE-A-2029-12345" else none,
         fun _ => 3⟩ 2030 true).state)
      ⟨fun _ _ => true,
       fun y => if y == 2030 then some "https://www.boe.es/diario_boe/txt.php?id=BOE-A-2029-12345" else none,
       fun _ => 3⟩ 2030 true).url
      = some "https://www.boe.es/diario_boe/txt.php?id=BOE-A-2029-12345"
    ∧ (get_url ⟨[]⟩
        ⟨fun _ _ => true,
         fun y => if y == 2030 then some "https://www.boe.es/diario_boe/txt.php?id=BOE-A-2029-12345" else none,
         fun _ => 3⟩ 2030 true).url
      = some "https://www.boe.es/diario_boe/txt.php?id=BOE-A-2029-12345"
    ∧ (get_url ((get_url ⟨[]⟩
        ⟨fun _ _ => true,
         fun y => if y == 2030 then some "https://www.boe.es/diario_boe/txt.php?id=BOE-A-2029-12345" else none,
         fun _ => 3⟩ 2030 true).state)
      ⟨fun _ _ => true,
       fun y => if y == 2030 then some "https://www.boe.es/diario_boe/txt.php?id=BOE-A-2029-12345" else none,
       fun _ => 3⟩ 2030 true).discoveryRuns = 0
    ∧ (get_url ((get_url ⟨[]⟩
        ⟨fun _ _ => true,
         fun y => if y == 2030 then some "https://www.boe.es/diario_boe/txt.php?id=BOE-A-2029-12345" else none,
         fun _ => 3⟩ 2030 true).state)
      ⟨fun _ _ => true,
       fun y => if y == 2030 then some "https://www.boe.es/diario_boe/txt.php?id=BOE-A-2029-12345" else none,
       fun _ => 3⟩ 2030 true).fetches = 1 := by
  refine ⟨rfl, rfl, rfl, rfl⟩

/-- C3 amended: after a successful Discover-tier resolution for a year with
no Known entry and no cache entry, an immediately subsequent `get_url` for
the same year returns the identical URL via the Cached tier without running
auto-discovery again and without changing the cache, but it performs exactly
one network fetch — the `validate_url` re-check of the cached URL. -/
theorem get_url_discover_then_cached (st : DiscoveryCache) (w : DiscoveryWorld)
    (year : Nat) (u : String)
    (hknown : KNOWN_URLS.find? (fun p => p.1 == year) = none)
    (hcache : alistGet st.cachedUrls (toString year) = none)
    (hdisc : w.discover year = some u)
    (hval : w.validate u year = true) :
    (get_url st w year true).url = some u
    ∧ (get_url st w year true).state = save_to_cache st year u
    ∧ (get_url (get_url st w year true).state w year true).url = some u
    ∧ (get_url (get_url st w year true).state w year true).state
        = (get_url st w year true).state
    ∧ (get_url (get_url st w year true).state w year true).discoveryRuns = 0
    ∧ (get_url (get_url st w year true).state w year true).fetches = 1 := by
  have h1 : get_url st w year true
      = ⟨some u, save_to_cache st year u, w.discoverFetches year + 1, 1⟩ := by
    unfold get_url
    rw [hknown]
    simp only [Option.map_none]
    rw [hcache]
    simp [hdisc, hval]
  have h2 : get_url (save_to_cache st year u) w year true
      = ⟨some u, save_to_cache st year u, 1, 0⟩ := by
    unfold get_url
    rw [hknown]
    simp only [Option.map_none]
    have : alistGet (save_to_cache st year u).cachedUrls (toString year)
        = some u := alistGet_alistSet _ _ _
    rw [this]
    simp [hval]
  rw [h1]
  simp [h2]

/-- C3 amended, witness: the two-call scenario at a concrete year, world and
empty cache. -/
theorem get_url_discover_then_cached_witness :
    KNOWN_URLS.find? (fun p => p.1 == 2031) = none
    ∧ alistGet (DiscoveryCache.mk []).cachedUrls (toString 2031) = none
    ∧ (get_url ((get_url ⟨[]⟩
        ⟨fun _ _ => true, fun _ => some "https://www.boe.es/x", fun _ => 2⟩
        2031 true).state)
        ⟨fun _ _ => true, fun _ => some "https://www.boe.es/x", fun _ => 2⟩
        2031 true).fetches = 1 :=
  ⟨by decide, by decide,
   (get_url_discover_then_cached ⟨[]⟩
     ⟨fun _ _ => true, fun _ => some "https://www.boe.es/x", fun _ => 2⟩
     2031 "https://www.boe.es/x" (by decide) (by decide) rfl rfl).2.2.2.2.2⟩

/-- The known-patterns strategy always yields at least the nine fixed
national holidays. -/
theorem boe_conocidos_length (year : Nat) (content : List Char) :
    9 ≤ (boe_parse_patrones_conocidos year content).length := by
  unfold boe_parse_patrones_conocidos
  simp only [List.length_append]
  have h9 : (festivosFijos year).length = 9 := by
    simp [festivosFijos]
  omega

/-- The base known-patterns strategy also always yields at least nine. -/
theorem base_conocidos_length (year : Nat) (content : List Char) :
    9 ≤ (base_parse_patrones_conocidos year content).length := by
  unfold base_parse_patrones_conocidos
  simp only [List.length_append]
  have h9 : (festivosFijos year).length = 9 := by
    simp [festivosFijos]
  omega

/-- C4: both strategy chains evaluate their strategies in declared priority
order and return the first result whose record count meets the per-adapter
minimum (9 for the national `BOEScraper` chain, 8 for the `BaseScraper`
default); when no strategy meets the minimum they return the highest-yield
result seen.  (The fallback clause is vacuous: the known-patterns strategy
always yields at least the nine fixed national holidays, so some strategy
always meets the minimum.) -/
theorem parse_festivos_chain_priority (year : Nat) (content : List Char)
    (tablaCcaa tablaHtml textoPatrones tablaB textoB : List Festivo) :
    boe_parse_festivos year content tablaCcaa tablaHtml textoPatrones
      = (firstMeeting 9 (boeTried year content tablaCcaa tablaHtml textoPatrones)).getD
          (maxYield (boeTried year content tablaCcaa tablaHtml textoPatrones))
    ∧ base_parse_festivos year content tablaB textoB
      = (firstMeeting 8 (baseTried year content tablaB textoB)).getD
          (maxYield (baseTried year content tablaB textoB)) := by
  constructor
  · have hcon := boe_conocidos_length year content
    have hconne : boe_parse_patrones_conocidos year content ≠ [] := by
      intro h
      rw [h] at hcon
      simp at hcon
    by_cases hy : 2024 ≤ year
    · by_cases h0 : 9 ≤ tablaCcaa.length
      · have hne : tablaCcaa ≠ [] := by
          intro h
          rw [h] at h0
          simp at h0
        simp [boe_parse_festivos, boeTried, firstMeeting, List.find?, hy, h0, hne]
      · simp [boe_parse_festivos, boeTried, firstMeeting, List.find?, hy, h0,
          hcon, hconne]
    · simp [boe_parse_festivos, boeTried, firstMeeting, List.find?, hy, hcon,
        hconne]
  · have hcon := base_conocidos_length year content
    have h8 : 8 ≤ (base_parse_patrones_conocidos year content).length :=
      le_trans (by norm_num) hcon
    have hconne : base_parse_patrones_conocidos year content ≠ [] := by
      intro h
      rw [h] at hcon
      simp at hcon
    by_cases h1 : 8 ≤ tablaB.length
    · have hne : tablaB ≠ [] := by
        intro h
        rw [h] at h1
        simp at h1
      simp [base_parse_festivos, baseTried, firstMeeting, List.find?, h1, hne]
    · by_cases h2 : 8 ≤ textoB.length
      · have hne : textoB ≠ [] := by
          intro h
          rw [h] at h2
          simp at h2
        simp [base_parse_festivos, baseTried, firstMeeting, List.find?, h1, h2, hne]
      · simp [base_parse_festivos, baseTried, firstMeeting, List.find?, h1, h2,
          h8, hconne]

/-- C9: the scrape validation stage drops exactly the records failing the
structural checks, keeps every other record (in order, never aborting the
whole list), counts each drop with one diagnostic warning, and every record
in the returned list passes all the structural checks (required fields
`fecha`, `descripcion`, `tipo`, `ambito` present and a `%Y-%m-%d`-parseable
date). -/
theorem scrape_validation_drops_invalid (parsed : List Festivo) :
    (scrape_validate parsed).1 = parsed.filter (fun f => validate_festivo f)
    ∧ (∀ f ∈ parsed, validate_festivo f = false → f ∉ (scrape_validate parsed).1)
    ∧ (∀ f ∈ (scrape_validate parsed).1,
        f.fecha.isSome = true ∧ f.descripcion.isSome = true
          ∧ f.tipo.isSome = true ∧ f.ambito.isSome = true
          ∧ validYmd (f.fecha.getD "") = true)
    ∧ (scrape_validate parsed).2
        = parsed.length - (scrape_validate parsed).1.length
    ∧ (scrape_validate parsed).1.Sublist parsed := by
  have hfil : ∀ l : List Festivo,
      (scrape_validate l).1 = l.filter (fun f => validate_festivo f) := by
    intro l
    induction l with
    | nil => rfl
    | cons f rest ih =>
      by_cases h : validate_festivo f = true
      · simp [scrape_validate, h, ih]
      · simp [scrape_validate, h, ih, List.filter_cons,
          Bool.eq_false_iff.mpr h]
  have hcnt : ∀ l : List Festivo,
      (scrape_validate l).2 = l.length - (scrape_validate l).1.length := by
    intro l
    induction l with
    | nil => rfl
    | cons f rest ih =>
      have hsub : (scrape_validate rest).1.length ≤ rest.length := by
        rw [hfil rest]
        exact List.length_filter_le _ _
      by_cases h : validate_festivo f = true
      all_goals simp [scrape_validate, h, ih]
      all_goals omega
  refine ⟨hfil parsed, ?_, ?_, hcnt parsed, ?_⟩
  · intro f hf hbad hmem
    rw [hfil parsed] at hmem
    have := List.of_mem_filter hmem
    rw [hbad] at this
    exact Bool.false_ne_true this
  · intro f hmem
    rw [hfil parsed] at hmem
    have hv := List.of_mem_filter hmem
    simp only [validate_festivo, Bool.and_eq_true] at hv
    exact ⟨hv.1.1.1.1, hv.1.1.1.2, hv.1.1.2, hv.1.2, hv.2⟩
  · rw [hfil parsed]
    exact List.filter_sublist _

/-- Reassociation of the concrete January date string. -/
theorem string_hyphen01 (x z : String) :
    x ++ "-" ++ pad2 1 ++ "-" ++ z = x ++ "-01-" ++ z := by
  rcases x with ⟨xs⟩
  rcases z with ⟨zs⟩
  show String.mk (xs ++ ['-'] ++ ['0', '1'] ++ ['-'] ++ zs)
      = String.mk (xs ++ ['-', '0', '1', '-'] ++ zs)
  exact congrArg String.mk (by simp)

/-- C10 counterexample: a holiday row occurring before any month header row
(`mes_actual` still `None`) is silently dropped — `_mes_a_numero(None)`
raises inside the guarded block and the bare `except` skips the row — so it
is not emitted as a January date as the claim states for the missing-header
case. -/
theorem tabla_ccaa_missing_header_drops_row :
    parse_tabla_ccaa 2026 ["andalucia"] none [["15 Fiesta Local", "x"]] = []
    ∧ mes_a_numero_opt none = none := by
  refine ⟨rfl, rfl⟩

/-- C10 amended: for every month-name string that is not one of the twelve
recognized Spanish names (after lowercasing — the empty string included),
`_mes_a_numero` returns 1, and a holiday row processed under such an
unrecognized month header only ever appends records whose date has month
component `01` (January); rows encountered while no month header has been
seen at all are dropped, not emitted. -/
theorem tabla_ccaa_unrecognized_month_is_january (s : String)
    (h : ∀ p ∈ mesesOrdered, p.1 ≠ pyLower s)
    (year : Nat) (headers : List String) (filtro : Option String)
    (fs : List Festivo) (cells : List String) :
    mes_a_numero s = 1
    ∧ mes_a_numero_opt (some s) = some 1
    ∧ (∀ f ∈ (tablaCcaaStep year headers filtro (some s, fs) cells).2,
        f ∈ fs ∨ ∃ d, f.fecha = some (pad4 year ++ "-01-" ++ pad2 d)) := by
  have h1 : mes_a_numero s = 1 := by
    unfold mes_a_numero
    have : mesesOrdered.find? (fun p => p.1 == pyLower s) = none := by
      rw [List.find?_eq_none]
      intro p hp
      simpa using h p hp
    rw [this]
    rfl
  refine ⟨h1, by simp [mes_a_numero_opt, h1], ?_⟩
  intro f hf
  rcases cells with _ | ⟨fechaCell, restCells⟩
  · simp only [tablaCcaaStep] at hf
    exact Or.inl hf
  · simp only [tablaCcaaStep, mes_a_numero_opt, h1] at hf
    split at hf
    · exact Or.inl hf
    · split at hf
      · exact Or.inl hf
      · rename_i dia descripcion _
        split at hf
        · exact Or.inl hf
        · split at hf
          · rcases List.mem_append.mp hf with hl | hr
            · exact Or.inl hl
            · refine Or.inr ⟨dia, ?_⟩
              simp only [List.mem_singleton] at hr
              rw [hr, ← string_hyphen01]
          · rcases List.mem_append.mp hf with hl | hr
            · exact Or.inl hl
            · rcases List.mem_map.mp hr with ⟨c, _, hc⟩
              refine Or.inr ⟨dia, ?_⟩
              rw [← hc, ← string_hyphen01]

/-- C10 amended, witness: a concrete unrecognized header `"Mes Raro"` over a
concrete holiday row. -/
theorem tabla_ccaa_unrecognized_month_is_january_witness :
    (∀ p ∈ mesesOrdered, p.1 ≠ pyLower "Mes Raro")
    ∧ mes_a_numero "Mes Raro" = 1
    ∧ (∀ f ∈ (tablaCcaaStep 2026 ["andalucia"] none (some "Mes Raro", [])
        ["15 Fiesta Local", "x"]).2,
        f ∈ ([] : List Festivo)
          ∨ ∃ d, f.fecha = some (pad4 2026 ++ "-01-" ++ pad2 d)) :=
  ⟨by decide,
   (tabla_ccaa_unrecognized_month_is_january "Mes Raro" (by decide)
     2026 ["andalucia"] none [] ["15 Fiesta Local", "x"]).1,
   (tabla_ccaa_unrecognized_month_is_january "Mes Raro" (by decide)
     2026 ["andalucia"] none [] ["15 Fiesta Local", "x"]).2.2⟩

/-- C5 counterexample: when the scraped local list itself contains the same
local record twice, `get_festivos_municipio` returns both copies — two
records with the same date, kind local and the same municipality scope —
because it performs no deduplication. -/
theorem get_festivos_municipio_keeps_local_duplicates :
    get_festivos_municipio "canarias" [] [] [dupLocalSample, dupLocalSample]
        none "AGAETE" = some [dupLocalSample, dupLocalSample]
    ∧ ¬ localDupFree "AGAETE" [dupLocalSample, dupLocalSample] := by
  constructor
  · decide
  · intro hfree
    unfold localDupFree at hfree
    have hfil : [dupLocalSample, dupLocalSample].filter
        (fun f => f.tipo == some "local" && f.municipio == some "AGAETE")
        = [dupLocalSample, dupLocalSample] := by decide
    rw [hfil] at hfree
    exact (List.pairwise_cons.mp hfree).1 dupLocalSample (by decide) rfl

/-- Every stable insertion is a permutation of consing. -/
theorem insertOrdered_perm {α : Type} (keep : α → α → Bool) (x : α)
    (l : List α) : (insertOrdered keep x l).Perm (x :: l) := by
  induction l with
  | nil => exact List.Perm.refl _
  | cons y ys ih =>
    by_cases h : keep x y = true
    · simp [insertOrdered, h]
    · simp only [insertOrdered, h]
      rw [if_neg (by simp [h])]
      exact (ih.cons y).trans (List.Perm.swap x y ys)

/-- The stable sort permutes its input. -/
theorem stableSortBy_perm {α : Type} (keep : α → α → Bool) (l : List α) :
    (stableSortBy keep l).Perm l := by
  induction l with
  | nil => exact List.Perm.refl _
  | cons x xs ih =>
    exact (insertOrdered_perm keep x (stableSortBy keep xs)).trans (ih.cons x)

/-- C5 amended: `get_festivos_municipio` performs no deduplication — its
output is exactly a date-sorted permutation of national records plus
applicable autonomic records plus the locals of the municipality.  The
output has no duplicate (date, local, municipality) pair iff the
concatenation has none; in particular a duplicated local record in the
scraped local list survives into the output, and the invariant holds only
when the input local list is already duplicate-free. -/
theorem get_festivos_municipio_nodup_iff_input (ccaa : String)
    (nacionales autonomicos locales : List Festivo) (isla : Option String)
    (municipio : String) (out : List Festivo)
    (hout : get_festivos_municipio ccaa nacionales autonomicos locales isla
        municipio = some out) :
    out.Perm (festivos_totales ccaa nacionales autonomicos locales isla municipio)
    ∧ (localDupFree municipio
        (festivos_totales ccaa nacionales autonomicos locales isla municipio)
        ↔ localDupFree municipio out) := by
  unfold get_festivos_municipio at hout
  by_cases hall : ((festivos_totales ccaa nacionales autonomicos locales isla
      municipio).all (fun f => f.fecha.isSome)) = true
  · rw [if_pos hall] at hout
    have hsort : stableSortBy
        (fun a b => leChars (fechaKey a).toList (fechaKey b).toList)
        (festivos_totales ccaa nacionales autonomicos locales isla municipio)
        = out := Option.some.inj hout
    have hperm : out.Perm
        (festivos_totales ccaa nacionales autonomicos locales isla municipio) := by
      rw [← hsort]
      exact stableSortBy_perm _ _
    refine ⟨hperm, ?_⟩
    have hfperm := hperm.filter
      (fun f => f.tipo == some "local" && f.municipio == some municipio)
    exact (hfperm.pairwise_iff (fun h hn => h hn.symm)).symm
  · rw [if_neg hall] at hout
    exact absurd hout (by simp)

/-- C5 amended, witness: a single (non-duplicated) local record resolved for
its municipality. -/
theorem get_festivos_municipio_nodup_iff_input_witness :
    get_festivos_municipio "canarias" [] [] [dupLocalSample] none "AGAETE"
        = some [dupLocalSample]
    ∧ [dupLocalSample].Perm
        (festivos_totales "canarias" [] [] [dupLocalSample] none "AGAETE")
    ∧ (localDupFree "AGAETE"
        (festivos_totales "canarias" [] [] [dupLocalSample] none "AGAETE")
        ↔ localDupFree "AGAETE" [dupLocalSample]) :=
  ⟨rfl,
   (get_festivos_municipio_nodup_iff_input "canarias" [] [] [dupLocalSample]
     none "AGAETE" [dupLocalSample] rfl).1,
   (get_festivos_municipio_nodup_iff_input "canarias" [] [] [dupLocalSample]
     none "AGAETE" [dupLocalSample] rfl).2⟩

/-- C6: the docstring of `remove_accents` promises to keep `ñ` and `ç`
(`"Elimina acentos y diacríticos manteniendo ñ y ç"`), and the filter lists
them, but after NFD the precomposed characters no longer exist — only the
base letter and a combining mark (which the keep-list does not contain) —
so `ñ` becomes `n` and `ç` becomes `c`, and the canonical key of
`"España"` is `"espana"`, not `"españa"`. -/
theorem remove_accents_drops_enye_cedilla :
    remove_accents ['ñ'] = ['n']
    ∧ remove_accents ['ç'] = ['c']
    ∧ remove_accents "señor Ñoño çedilla".toList = "senor Nono cedilla".toList
    ∧ normalizeSearchStr "España" = "espana" := by
  refine ⟨by decide, by decide, by decide, by decide⟩

/-- C7 counterexample: `normalize_search` is not idempotent — the article
loop strips `les` at its list position, exposing a second leading article
(`les`) that only a later pass removes: one pass sends `"les les a"` to
`"les a"`, a second pass to `"a"`. -/
theorem normalize_search_not_idempotent :
    normalizeSearchStr "les les a" = "les a"
    ∧ normalizeSearchStr (normalizeSearchStr "les les a") = "a"
    ∧ normalizeSearchStr (normalizeSearchStr "les les a")
        ≠ normalizeSearchStr "les les a" := by
  refine ⟨by decide, by decide, by decide⟩

/-- Lowercasing is a projection: its image is lowercase-fixed. -/
theorem toLowerChar_fix (c : Char) : toLowerChar (toLowerChar c) = toLowerChar c := by
  unfold toLowerChar
  cases h : lowerPairs.find? (fun p => p.1 == c) with
  | none => simp [h]
  | some p =>
    have hmem : p ∈ lowerPairs := List.mem_of_find?_eq_some h
    have hnone : ∀ q ∈ lowerPairs,
        lowerPairs.find? (fun r => r.1 == q.2) = none := by decide
    simp [hnone p hmem]

/-- Every mark in the decomposition table is a combining mark. -/
theorem nfdPairs_mark_isMn :
    ∀ p ∈ nfdPairs, isMn p.2.2 = true := by decide

/-- Bases of decompositions of lowercase-fixed characters are stable. -/
theorem nfdPairs_base_stable :
    ∀ p ∈ nfdPairs, toLowerChar p.1 = p.1 → stableChar p.2.1 = true := by decide

/-- Every non-mark member of the decomposition of a lowercased character is
stable under all the character-level stages. -/
theorem stable_of_mem_nfd_lower (c d : Char)
    (hd : d ∈ nfdChar (toLowerChar c)) (hmn : isMn d = false) :
    stableChar d = true := by
  have hfix : toLowerChar (toLowerChar c) = toLowerChar c := toLowerChar_fix c
  unfold nfdChar at hd
  cases h : nfdPairs.find? (fun p => p.1 == toLowerChar c) with
  | none =>
    rw [h] at hd
    simp only [List.mem_singleton] at hd
    subst hd
    simp [stableChar, hfix, nfdChar, h, hmn]
  | some p =>
    have hmem : p ∈ nfdPairs := List.mem_of_find?_eq_some h
    have hp1 : p.1 = toLowerChar c := by
      have := List.find?_some h
      simpa using this
    rw [h] at hd
    simp only [List.mem_cons, List.mem_singleton, List.not_mem_nil, or_false] at hd
    rcases hd with hd | hd
    · subst hd
      exact nfdPairs_base_stable p hmem (by rw [hp1, hfix])
    · subst hd
      rw [nfdPairs_mark_isMn p hmem] at hmn
      exact absurd hmn (by simp)

/-- NFD is the identity on stable characters. -/
theorem nfd_eq_self (l : List Char) (h : ∀ c ∈ l, stableChar c = true) :
    nfd l = l := by
  induction l with
  | nil => rfl
  | cons c r ih =>
    have hc := h c (List.mem_cons_self c r)
    have hcr : nfdChar c = [c] := by
      simp only [stableChar, Bool.and_eq_true, beq_iff_eq] at hc
      exact hc.1.2
    have := ih (fun x hx => h x (List.mem_cons_of_mem c hx))
    simp [nfd, List.map_cons] at this ⊢
    simp [hcr]
    exact this

/-- The keep filter of `remove_accents` keeps every non-mark character. -/
theorem filter_keep_eq_self (l : List Char)
    (h : ∀ c ∈ l, isMn c = false) : l.filter keepChar = l := by
  rw [List.filter_eq_self]
  intro c hc
  simp [keepChar, h c hc]

/-- No composition fires on a non-mark second character. -/
theorem composeChar_none (b m : Char) (h : isMn m = false) :
    composeChar b m = none := by
  unfold composeChar
  cases hf : nfdPairs.find? (fun p => p.2.1 == b && p.2.2 == m) with
  | none => rfl
  | some p =>
    have hmem : p ∈ nfdPairs := List.mem_of_find?_eq_some hf
    have hpred := List.find?_some hf
    simp only [Bool.and_eq_true, beq_iff_eq] at hpred
    have := nfdPairs_mark_isMn p hmem
    rw [hpred.2] at this
    rw [this] at h
    exact absurd h (by simp)

/-- NFC is the identity on mark-free text. -/
theorem nfcAux_eq_self (l : List Char) :
    ∀ b, isMn b = false → (∀ c ∈ l, isMn c = false) → nfcAux b l = b :: l := by
  induction l with
  | nil => intro b _ _; rfl
  | cons m r ih =>
    intro b hb h
    have hm : isMn m = false := h m (List.mem_cons_self m r)
    simp only [nfcAux, composeChar_none b m hm]
    rw [ih m hm (fun x hx => h x (List.mem_cons_of_mem m hx))]

/-- NFC identity, list version. -/
theorem nfc_eq_self (l : List Char) (h : ∀ c ∈ l, isMn c = false) :
    nfc l = l := by
  cases l with
  | nil => rfl
  | cons c r =>
    exact nfcAux_eq_self r c (h c (List.mem_cons_self c r))
      (fun x hx => h x (List.mem_cons_of_mem c hx))

/-- Accent removal is the identity on stable text. -/
theorem remove_accents_eq_self (l : List Char)
    (h : ∀ c ∈ l, stableChar c = true) : remove_accents l = l := by
  have hmn : ∀ c ∈ l, isMn c = false := by
    intro c hc
    have := h c hc
    simp only [stableChar, Bool.and_eq_true, Bool.not_eq_true'] at this
    exact this.2
  unfold remove_accents
  rw [nfd_eq_self l h, filter_keep_eq_self l hmn, nfc_eq_self l hmn]

/-- Lowercasing is the identity on stable text. -/
theorem map_lower_eq_self (l : List Char)
    (h : ∀ c ∈ l, stableChar c = true) : l.map toLowerChar = l := by
  induction l with
  | nil => rfl
  | cons c r ih =>
    have hc := h c (List.mem_cons_self c r)
    simp only [stableChar, Bool.and_eq_true, beq_iff_eq] at hc
    simp [hc.1.1, ih (fun x hx => h x (List.mem_cons_of_mem c hx))]

/-- Every character surviving `remove_accents` after lowercasing is
stable. -/
theorem stable_remove_accents_lower (l : List Char) :
    ∀ c ∈ remove_accents (l.map toLowerChar), stableChar c = true := by
  intro c hc
  unfold remove_accents at hc
  have hnomn : ∀ d ∈ (nfd (l.map toLowerChar)).filter keepChar,
      isMn d = false := by
    intro d hd
    have hk := List.of_mem_filter hd
    by_cases hm : isMn d = true
    · simp only [keepChar, hm, Bool.not_true, Bool.false_or] at hk
      have hdm : d ∈ ['ñ', 'Ñ', 'ç', 'Ç'] := by simpa using hk
      have : isMn d = false := by
        simp only [List.mem_cons, List.not_mem_nil, or_false] at hdm
        rcases hdm with h' | h' | h' | h' <;> (subst h'; decide)
      rw [this] at hm
      exact absurd hm (by simp)
    · simpa using hm
  rw [nfc_eq_self _ hnomn] at hc
  have hmnc : isMn c = false := hnomn c hc
  have hmem : c ∈ nfd (l.map toLowerChar) := List.mem_of_mem_filter hc
  unfold nfd at hmem
  rw [List.mem_flatten] at hmem
  obtain ⟨s, hs, hcs⟩ := hmem
  rw [List.mem_map] at hs
  obtain ⟨x, hx, rfl⟩ := hs
  rw [List.mem_map] at hx
  obtain ⟨x0, _, rfl⟩ := hx
  exact stable_of_mem_nfd_lower x0 c hcs hmnc

/-- Stripping one article keeps only characters of the input. -/
theorem mem_of_stripArticleOnce (a l : List Char) (c : Char)
    (hc : c ∈ stripArticleOnce a l) : c ∈ l := by
  simp only [stripArticleOnce] at hc
  by_cases h1 : ((l.take a.length).map toLowerChar == a) = true
  · rw [if_pos h1] at hc
    by_cases h2 : (((l.drop a.length).takeWhile pyIsSpace).isEmpty) = true
    · rw [if_pos h2] at hc
      exact hc
    · rw [if_neg h2] at hc
      exact List.mem_of_mem_drop (List.mem_of_mem_drop hc)
  · rw [if_neg h1] at hc
    exact hc

/-- The article loop keeps only characters of the input. -/
theorem mem_of_foldl_strip (arts : List (List Char)) :
    ∀ (l : List Char) (c : Char),
      c ∈ arts.foldl (fun s a => stripArticleOnce a s) l → c ∈ l := by
  induction arts with
  | nil => intro l c hc; exact hc
  | cons a as ih =>
    intro l c hc
    exact mem_of_stripArticleOnce a l c (ih (stripArticleOnce a l) c hc)

/-- Whitespace collapsing only keeps input characters or produces spaces. -/
theorem mem_of_collapseAux :
    ∀ (l : List Char) (b : Bool) (c : Char),
      c ∈ collapseAux b l → c ∈ l ∨ c = ' ' := by
  intro l
  induction l with
  | nil => intro b c hc; exact absurd hc (by simp [collapseAux])
  | cons d r ih =>
    intro b c hc
    simp only [collapseAux] at hc
    by_cases hd : pyIsSpace d = true
    · rw [if_pos hd] at hc
      by_cases hb : b = true
      · rw [if_pos hb] at hc
        rcases ih true c hc with h | h
        · exact Or.inl (List.mem_cons_of_mem d h)
        · exact Or.inr h
      · rw [if_neg hb] at hc
        rcases List.mem_cons.mp hc with h | h
        · exact Or.inr h
        · rcases ih true c h with h' | h'
          · exact Or.inl (List.mem_cons_of_mem d h')
          · exact Or.inr h'
    · rw [if_neg hd] at hc
      rcases List.mem_cons.mp hc with h | h
      · exact Or.inl (by rw [h]; exact List.mem_cons_self d r)
      · rcases ih false c h with h' | h'
        · exact Or.inl (List.mem_cons_of_mem d h')
        · exact Or.inr h'

/-- `dropWhile` keeps only input characters. -/
theorem mem_of_dropWhile (p : Char → Bool) :
    ∀ (l : List Char) (c : Char), c ∈ l.dropWhile p → c ∈ l := by
  intro l
  induction l with
  | nil => intro c hc; exact hc
  | cons d r ih =>
    intro c hc
    rw [List.dropWhile_cons] at hc
    by_cases hd : p d = true
    · rw [if_pos hd] at hc
      exact List.mem_cons_of_mem d (ih c hc)
    · rw [if_neg hd] at hc
      exact hc

/-- Stripping edges keeps only input characters. -/
theorem mem_of_pyStripChars (l : List Char) (c : Char)
    (hc : c ∈ pyStripChars l) : c ∈ l := by
  unfold pyStripChars dropTrailingSpace at hc
  rw [List.mem_reverse] at hc
  have := mem_of_dropWhile pyIsSpace _ c hc
  rw [List.mem_reverse] at this
  exact mem_of_dropWhile pyIsSpace l c this

/-- An open space run only strengthens the shape invariant. -/
theorem spacesOKAux_of_true (r : List Char)
    (h : spacesOKAux true r = true) : spacesOKAux false r = true := by
  cases r with
  | nil => rfl
  | cons c t =>
    simp only [spacesOKAux] at h ⊢
    by_cases hc : pyIsSpace c = true
    · rw [if_pos hc] at h
      simp at h
    · rw [if_neg hc] at h ⊢
      exact h

/-- Collapsed output satisfies the shape invariant. -/
theorem spacesOK_collapseAux :
    ∀ (l : List Char) (b : Bool), spacesOKAux b (collapseAux b l) = true := by
  intro l
  induction l with
  | nil => intro b; rfl
  | cons c r ih =>
    intro b
    simp only [collapseAux]
    by_cases hc : pyIsSpace c = true
    · rw [if_pos hc]
      by_cases hb : b = true
      · rw [if_pos hb, hb]
        exact ih true
      · rw [if_neg hb]
        have hb' : b = false := Bool.eq_false_iff.mpr hb
        rw [hb']
        simp only [spacesOKAux]
        rw [if_pos (by decide)]
        simpa using ih true
    · rw [if_neg hc]
      simp only [spacesOKAux]
      rw [if_neg hc]
      exact ih false

/-- Leading-space removal preserves the shape invariant. -/
theorem spacesOK_dropWhile (l : List Char)
    (h : spacesOKAux false l = true) :
    spacesOKAux false (l.dropWhile pyIsSpace) = true := by
  induction l with
  | nil => exact h
  | cons c r ih =>
    rw [List.dropWhile_cons]
    by_cases hc : pyIsSpace c = true
    · rw [if_pos hc]
      have hauxr : spacesOKAux true r = true := by
        simp only [spacesOKAux, if_pos hc, Bool.and_eq_true] at h
        exact h.2
      have hr : spacesOKAux false r = true := spacesOKAux_of_true r hauxr
      have hstop : r.dropWhile pyIsSpace = r := by
        cases r with
        | nil => rfl
        | cons d t =>
          have hd : pyIsSpace d = false := by
            by_contra hdc
            have hd' : pyIsSpace d = true := by
              cases hpd : pyIsSpace d
              · exact absurd hpd hdc
              · rfl
            simp only [spacesOKAux, if_pos hd'] at hauxr
            simp at hauxr
          rw [List.dropWhile_cons, if_neg (by simp [hd])]
      rw [hstop]
      exact hr
    · rw [if_neg hc]
      exact h

/-- Prefixes preserve the shape invariant. -/
theorem spacesOK_take :
    ∀ (l : List Char) (b : Bool) (n : Nat),
      spacesOKAux b l = true → spacesOKAux b (l.take n) = true := by
  intro l
  induction l with
  | nil => intro b n _; simp [spacesOKAux]
  | cons c r ih =>
    intro b n h
    cases n with
    | zero => rfl
    | succ m =>
      rw [List.take_succ_cons]
      simp only [spacesOKAux] at h ⊢
      by_cases hc : pyIsSpace c = true
      · rw [if_pos hc] at h ⊢
        simp only [Bool.and_eq_true] at h ⊢
        exact ⟨h.1, ih true m h.2⟩
      · rw [if_neg hc] at h ⊢
        exact ih false m h

/-- `dropWhile` removes a prefix: the remainder together with it restores
the list. -/
theorem dropWhile_exists_prefix (p : Char → Bool) :
    ∀ l : List Char, ∃ t, t ++ l.dropWhile p = l := by
  intro l
  induction l with
  | nil => exact ⟨[], rfl⟩
  | cons c r ih =>
    rw [List.dropWhile_cons]
    by_cases hc : p c = true
    · rw [if_pos hc]
      obtain ⟨t, ht⟩ := ih
      exact ⟨c :: t, by rw [List.cons_append, ht]⟩
    · rw [if_neg hc]
      exact ⟨[], rfl⟩

/-- Trailing-space removal is a prefix operation. -/
theorem dropTrailing_eq_take (l : List Char) :
    ∃ n, dropTrailingSpace l = l.take n := by
  obtain ⟨t, ht⟩ := dropWhile_exists_prefix pyIsSpace l.reverse
  refine ⟨(l.reverse.dropWhile pyIsSpace).reverse.length, ?_⟩
  unfold dropTrailingSpace
  have hl : l = (l.reverse.dropWhile pyIsSpace).reverse ++ t.reverse := by
    have := congrArg List.reverse ht
    rw [List.reverse_append] at this
    rw [this, List.reverse_reverse]
  calc (l.reverse.dropWhile pyIsSpace).reverse
      = ((l.reverse.dropWhile pyIsSpace).reverse ++ t.reverse).take
          (l.reverse.dropWhile pyIsSpace).reverse.length := by
        rw [List.take_left]
    _ = l.take (l.reverse.dropWhile pyIsSpace).reverse.length := by rw [← hl]

/-- Edge stripping preserves the shape invariant. -/
theorem spacesOK_pyStrip (l : List Char)
    (h : spacesOKAux false l = true) :
    spacesOKAux false (pyStripChars l) = true := by
  unfold pyStripChars
  obtain ⟨n, hn⟩ := dropTrailing_eq_take (l.dropWhile pyIsSpace)
  rw [hn]
  exact spacesOK_take _ false n (spacesOK_dropWhile l h)

/-- Collapsing is the identity on shape-invariant text. -/
theorem collapseAux_eq_self :
    ∀ (l : List Char) (b : Bool), spacesOKAux b l = true → collapseAux b l = l := by
  intro l
  induction l with
  | nil => intro b _; rfl
  | cons c r ih =>
    intro b h
    simp only [spacesOKAux] at h
    simp only [collapseAux]
    by_cases hc : pyIsSpace c = true
    · rw [if_pos hc] at h ⊢
      simp only [Bool.and_eq_true, beq_iff_eq, Bool.not_eq_true'] at h
      rw [h.1.2]
      rw [if_neg (by simp)]
      rw [h.1.1, ih true h.2]
    · rw [if_neg hc] at h ⊢
      rw [ih false h]

/-- `dropWhile` is idempotent. -/
theorem dropWhile_idem (p : Char → Bool) :
    ∀ l : List Char, (l.dropWhile p).dropWhile p = l.dropWhile p := by
  intro l
  induction l with
  | nil => rfl
  | cons c r ih =>
    rw [List.dropWhile_cons]
    by_cases hc : p c = true
    · rw [if_pos hc]
      exact ih
    · rw [if_neg hc]
      rw [List.dropWhile_cons, if_neg hc]

/-- The head of a `dropWhile` result fails the predicate. -/
theorem dropWhile_head_false (p : Char → Bool) :
    ∀ (l : List Char) (c : Char) (r : List Char),
      l.dropWhile p = c :: r → p c = false := by
  intro l
  induction l with
  | nil => intro c r h; exact absurd h (by simp)
  | cons d t ih =>
    intro c r h
    rw [List.dropWhile_cons] at h
    by_cases hd : p d = true
    · rw [if_pos hd] at h
      exact ih c r h
    · rw [if_neg hd] at h
      cases h
      exact Bool.eq_false_iff.mpr hd

/-- Python `str.strip()` is idempotent. -/
theorem pyStripChars_idem (l : List Char) :
    pyStripChars (pyStripChars l) = pyStripChars l := by
  unfold pyStripChars
  have hstep1 : (dropTrailingSpace (l.dropWhile pyIsSpace)).dropWhile pyIsSpace
      = dropTrailingSpace (l.dropWhile pyIsSpace) := by
    obtain ⟨n, hn⟩ := dropTrailing_eq_take (l.dropWhile pyIsSpace)
    rw [hn]
    cases hu : l.dropWhile pyIsSpace with
    | nil => simp
    | cons c r =>
      have hc : pyIsSpace c = false := dropWhile_head_false pyIsSpace l c r hu
      cases n with
      | zero => simp
      | succ m =>
        rw [List.take_succ_cons, List.dropWhile_cons, if_neg (by simp [hc])]
  rw [hstep1]
  unfold dropTrailingSpace
  rw [List.reverse_reverse, dropWhile_idem]

/-- The article loop keeps only characters of the input (wrapper). -/
theorem mem_of_stripLeadingArticles (l : List Char) (c : Char)
    (hc : c ∈ stripLeadingArticles l) : c ∈ l :=
  mem_of_foldl_strip searchArticles l c hc

/-- C7 amended: `normalize_search` is idempotent on every input whose
normalized form is already stable under the two token-level rules — the
comma-inversion resolution and the leading-article stripping.  (Full
idempotence fails: stacked leading articles or an inversion exposed only by
the first pass, as in `"les les a"`, need further passes.)  All the
character-level stages (strip, lowercase, accent removal, whitespace
collapse) are always identities on a first-pass output. -/
theorem normalize_search_idempotent_when_stable (x : List Char)
    (h1 : resolve_comma_inversion (normalize_search x) = normalize_search x)
    (h2 : stripLeadingArticles (normalize_search x) = normalize_search x) :
    normalize_search (normalize_search x) = normalize_search x := by
  by_cases hx : x.isEmpty = true
  · have h0 : normalize_search x = [] := by simp [normalize_search, hx]
    rw [h0]
    rfl
  · have hy : normalize_search x = collapseSpaces (stripLeadingArticles
        (remove_accents ((resolve_comma_inversion
          (pyStripChars x)).map toLowerChar))) := by
      simp [normalize_search, hx]
    have hstab : ∀ c ∈ normalize_search x, stableChar c = true := by
      intro c hc
      rw [hy] at hc
      unfold collapseSpaces at hc
      have hc1 := mem_of_pyStripChars _ c hc
      rcases mem_of_collapseAux _ false c hc1 with hc2 | hc2
      · have hc3 := mem_of_stripLeadingArticles _ c hc2
        exact stable_remove_accents_lower _ c hc3
      · rw [hc2]
        decide
    have hspair : spacesOKAux false (normalize_search x) = true := by
      rw [hy]
      unfold collapseSpaces
      exact spacesOK_pyStrip _ (spacesOK_collapseAux _ false)
    have hstrip : pyStripChars (normalize_search x) = normalize_search x := by
      rw [hy]
      unfold collapseSpaces
      exact pyStripChars_idem _
    obtain ⟨y, hydef⟩ : ∃ y, normalize_search x = y := ⟨_, rfl⟩
    rw [hydef] at h1 h2 hstab hspair hstrip ⊢
    clear hydef hy
    by_cases hye : y.isEmpty = true
    · have : y = [] := by
        cases y with
        | nil => rfl
        | cons a b => exact absurd hye (by simp)
      rw [this]
      rfl
    · unfold normalize_search
      rw [if_neg hye, hstrip, h1, map_lower_eq_self y hstab,
        remove_accents_eq_self y hstab, h2]
      unfold collapseSpaces
      rw [collapseAux_eq_self y false hspair]
      exact hstrip

/-- C7 amended, witness: a concrete input whose normalization is stable. -/
theorem normalize_search_idempotent_when_stable_witness :
    resolve_comma_inversion (normalize_search "El Ejido".toList)
        = normalize_search "El Ejido".toList
    ∧ stripLeadingArticles (normalize_search "El Ejido".toList)
        = normalize_search "El Ejido".toList
    ∧ normalize_search (normalize_search "El Ejido".toList)
        = normalize_search "El Ejido".toList :=
  ⟨by decide, by decide,
   normalize_search_idempotent_when_stable "El Ejido".toList
     (by decide) (by decide)⟩

/-- C8 counterexample: with query `"ab"`, candidates `["xb", "ax"]` and
threshold 50, both candidates score exactly 50 and have the same length,
and `"ax"` precedes `"xb"` lexicographically, so the claimed
shortest-then-lexicographic tie-break would return `"ax"`; the code returns
`"xb"`, the earlier list entry. -/
theorem find_best_match_ties_by_list_position :
    find_best_match "ab".toList ["xb".toList, "ax".toList] 50
        = some "xb".toList
    ∧ scoreOf "ab".toList "xb".toList = scoreOf "ab".toList "ax".toList
    ∧ ("xb".toList).length = ("ax".toList).length
    ∧ leChars "ax".toList "xb".toList = true
    ∧ "xb".toList ≠ "ax".toList := by
  refine ⟨by decide, by decide, by decide, by decide, by decide⟩

/-- Score comparison is reflexive. -/
theorem scoreLe_refl (s : ScoreQ) : scoreLe s s = true := by
  simp [scoreLe]

/-- Score comparison is total. -/
theorem scoreLe_total (a b : ScoreQ) :
    scoreLe a b = true ∨ scoreLe b a = true := by
  simp only [scoreLe, decide_eq_true_eq]
  exact Nat.le_total _ _

/-- Score comparison is transitive through a positive denominator. -/
theorem scoreLe_trans (a b c : ScoreQ) (hb : 0 < b.den)
    (hab : scoreLe a b = true) (hbc : scoreLe b c = true) :
    scoreLe a c = true := by
  simp only [scoreLe, decide_eq_true_eq] at hab hbc ⊢
  have h3 : a.num * c.den * b.den ≤ c.num * a.den * b.den := by
    calc a.num * c.den * b.den = a.num * b.den * c.den := by ring
      _ ≤ b.num * a.den * c.den := Nat.mul_le_mul_right _ hab
      _ = b.num * c.den * a.den := by ring
      _ ≤ c.num * b.den * a.den := Nat.mul_le_mul_right _ hbc
      _ = c.num * a.den * b.den := by ring
  exact Nat.le_of_mul_le_mul_right h3 hb

/-- Denominators produced by `fuzzScore` are positive. -/
theorem fuzzScore_den_pos (a b : List Char) : 0 < (fuzzScore a b).den := by
  unfold fuzzScore
  by_cases h : (a.isEmpty && b.isEmpty) = true
  · rw [if_pos h]
    exact Nat.one_pos
  · rw [if_neg h]
    show 0 < a.length + b.length
    simp only [Bool.and_eq_true, List.isEmpty_iff] at h
    have : a.length + b.length ≠ 0 := by
      intro hz
      apply h
      constructor <;> (rw [← List.length_eq_zero]; omega)
    omega

/-- Below-threshold propagates down the score order. -/
theorem scoreAtLeast_le (s m : ScoreQ) (t : Nat) (hs : 0 < s.den)
    (hle : scoreLe s m = true) (hm : scoreAtLeast m t = false) :
    scoreAtLeast s t = false := by
  simp only [scoreLe, scoreAtLeast, decide_eq_true_eq, decide_eq_false_iff_not,
    not_le] at hle hm ⊢
  by_contra hcon
  push_neg at hcon
  have h1 : t * m.den * s.den ≤ s.num * m.den := by
    calc t * m.den * s.den = t * s.den * m.den := by ring
      _ ≤ s.num * m.den := Nat.mul_le_mul_right _ hcon
  have h2 : t * m.den * s.den ≤ m.num * s.den := le_trans h1 hle
  have h3 : t * m.den ≤ m.num := Nat.le_of_mul_le_mul_right h2 hs
  omega

/-- Reading a valid index through `map`. -/
theorem getD_map_lt {α β : Type} (f : α → β) (l : List α) (j : Nat)
    (d : α) (e : β) (hj : j < l.length) :
    (l.map f).getD j e = f (l.getD j d) := by
  induction l generalizing j with
  | nil => exact absurd hj (by simp)
  | cons a r ih =>
    cases j with
    | zero => rfl
    | succ k =>
      simp only [List.map_cons, List.getD_cons_succ]
      exact ih k (by simpa using hj)

/-- A valid index reads a member. -/
theorem getD_mem_of_lt {α : Type} (l : List α) (i : Nat) (d : α)
    (h : i < l.length) : l.getD i d ∈ l := by
  induction l generalizing i with
  | nil => exact absurd h (by simp)
  | cons a r ih =>
    cases i with
    | zero => exact List.mem_cons_self a r
    | succ k =>
      rw [List.getD_cons_succ]
      exact List.mem_cons_of_mem a (ih k (by simpa using h))

/-- Every member is read by some valid index. -/
theorem mem_imp_getD {α : Type} (l : List α) (a : α) (d : α) (h : a ∈ l) :
    ∃ j, j < l.length ∧ l.getD j d = a := by
  induction l with
  | nil => exact absurd h (by simp)
  | cons b r ih =>
    rcases List.mem_cons.mp h with hb | hr
    · exact ⟨0, by simp, by simp [hb.symm]⟩
    · obtain ⟨j, hj, hg⟩ := ih hr
      exact ⟨j + 1, by simpa using hj, by simpa using hg⟩

/-- `indexOfFirst` finds the first occurrence of a present element. -/
theorem indexOfFirst_spec (l : List (List Char)) (x : List Char)
    (hx : x ∈ l) :
    indexOfFirst l x < l.length
    ∧ l.getD (indexOfFirst l x) [] = x
    ∧ ∀ k, k < indexOfFirst l x → l.getD k [] ≠ x := by
  induction l with
  | nil => exact absurd hx (by simp)
  | cons a r ih =>
    by_cases ha : (a == x) = true
    · refine ⟨?_, ?_, ?_⟩
      · simp [indexOfFirst, ha]
      · simp only [indexOfFirst, if_pos ha, List.getD_cons_zero]
        exact beq_iff_eq.mp ha
      · intro k hk
        simp [indexOfFirst, ha] at hk
    · have hxr : x ∈ r := by
        rcases List.mem_cons.mp hx with hb | hr
        · exact absurd (beq_iff_eq.mpr hb.symm) ha
        · exact hr
      obtain ⟨h1, h2, h3⟩ := ih hxr
      refine ⟨?_, ?_, ?_⟩
      · simp only [indexOfFirst, if_neg ha, List.length_cons]
        omega
      · simp only [indexOfFirst, if_neg ha, List.getD_cons_succ]
        exact h2
      · intro k hk
        simp only [indexOfFirst, if_neg ha] at hk
        cases k with
        | zero =>
          rw [List.getD_cons_zero]
          intro hax
          exact ha (beq_iff_eq.mpr hax)
        | succ m =>
          rw [List.getD_cons_succ]
          exact h3 m (by omega)

/-- The head of the stable descending sort is the earliest maximum: it is a
list entry whose score is at least every other entry's, and every strictly
earlier entry scores strictly less. -/
theorem sorted_head_earliest_max (l : List (List Char × ScoreQ))
    (hne : l ≠ []) (hden : ∀ p ∈ l, 0 < p.2.den) :
    ∃ i, i < l.length
      ∧ (stableSortBy (fun p q => scoreLe q.2 p.2) l).head?
          = some (l.getD i ([], ⟨0, 1⟩))
      ∧ (∀ j, j < l.length →
          scoreLe (l.getD j ([], ⟨0, 1⟩)).2 (l.getD i ([], ⟨0, 1⟩)).2 = true)
      ∧ (∀ j, j < i →
          scoreLe (l.getD i ([], ⟨0, 1⟩)).2 (l.getD j ([], ⟨0, 1⟩)).2 = false) := by
  induction l with
  | nil => exact absurd rfl hne
  | cons x xs ih =>
    have hden' : ∀ p ∈ xs, 0 < p.2.den :=
      fun p hp => hden p (List.mem_cons_of_mem x hp)
    by_cases hxs0 : xs = []
    · subst hxs0
      refine ⟨0, by simp, rfl, ?_, by intro j hj; omega⟩
      intro j hj
      have hj0 : j = 0 := by
        simp only [List.length_cons, List.length_nil] at hj
        omega
      subst hj0
      exact scoreLe_refl _
    · obtain ⟨i', hi'len, hhead', hmax', hstrict'⟩ := ih hxs0 hden'
      have hsform : ∃ srest, stableSortBy (fun p q => scoreLe q.2 p.2) xs
          = (xs.getD i' ([], ⟨0, 1⟩)) :: srest := by
        cases hs : stableSortBy (fun p q => scoreLe q.2 p.2) xs with
        | nil =>
          rw [hs] at hhead'
          exact absurd hhead' (by simp)
        | cons a r =>
          rw [hs] at hhead'
          simp only [List.head?_cons, Option.some.injEq] at hhead'
          exact ⟨r, by rw [hhead']⟩
      obtain ⟨srest, hs⟩ := hsform
      have hsortcons : stableSortBy (fun p q => scoreLe q.2 p.2) (x :: xs)
          = insertOrdered (fun p q => scoreLe q.2 p.2) x
              ((xs.getD i' ([], ⟨0, 1⟩)) :: srest) := by
        show insertOrdered (fun p q => scoreLe q.2 p.2) x
            (stableSortBy (fun p q => scoreLe q.2 p.2) xs) = _
        rw [hs]
      have hdenh : 0 < (xs.getD i' ([], ⟨0, 1⟩)).2.den :=
        hden' _ (getD_mem_of_lt xs i' _ hi'len)
      by_cases hk : scoreLe (xs.getD i' ([], ⟨0, 1⟩)).2 x.2 = true
      · refine ⟨0, by simp, ?_, ?_, by intro j hj; omega⟩
        · rw [hsortcons]
          simp only [insertOrdered, if_pos hk]
          rfl
        · intro j hj
          cases j with
          | zero => exact scoreLe_refl _
          | succ k =>
            rw [List.getD_cons_succ, List.getD_cons_zero]
            exact scoreLe_trans _ _ _ hdenh
              (hmax' k (by simpa using hj)) hk
      · refine ⟨i' + 1, by simpa using hi'len, ?_, ?_, ?_⟩
        · rw [hsortcons]
          simp only [insertOrdered, if_neg hk]
          rw [List.getD_cons_succ]
          rfl
        · intro j hj
          cases j with
          | zero =>
            rw [List.getD_cons_zero, List.getD_cons_succ]
            rcases scoreLe_total x.2 (xs.getD i' ([], ⟨0, 1⟩)).2 with h | h
            · exact h
            · exact absurd h hk
          | succ k =>
            rw [List.getD_cons_succ, List.getD_cons_succ]
            exact hmax' k (by simpa using hj)
        · intro j hj
          cases j with
          | zero =>
            rw [List.getD_cons_succ, List.getD_cons_zero]
            exact Bool.eq_false_iff.mpr hk
          | succ k =>
            rw [List.getD_cons_succ, List.getD_cons_succ]
            exact hstrict' k (by omega)

/-- C8 amended: `find_best_match` returns `none` exactly when the query or
candidate list is empty or no candidate's score reaches the threshold;
otherwise it returns a candidate whose score is at least the threshold and
at least every other candidate's score, where ties (and candidates sharing
a normalized form) are resolved to the earliest list position — not by
shortest string or lexicographic order. -/
theorem find_best_match_earliest_max (q : List Char) (cs : List (List Char))
    (t : Nat) :
    (find_best_match q cs t = none →
      q.isEmpty = true ∨ cs.isEmpty = true
        ∨ ∀ c ∈ cs, scoreAtLeast (scoreOf q c) t = false)
    ∧ (∀ c, find_best_match q cs t = some c →
        ∃ i, i < cs.length ∧ c = cs.getD i []
          ∧ scoreAtLeast (scoreOf q c) t = true
          ∧ (∀ j, j < cs.length →
              scoreLe (scoreOf q (cs.getD j [])) (scoreOf q c) = true)
          ∧ (∀ j, j < i →
              scoreLe (scoreOf q c) (scoreOf q (cs.getD j [])) = false)) := by
  by_cases hq : q.isEmpty = true
  · constructor
    · intro _
      exact Or.inl hq
    · intro c hc
      exfalso
      unfold find_best_match fuzzy_match at hc
      rw [if_pos (by simp [hq])] at hc
      exact absurd hc (by simp)
  by_cases hcs : cs.isEmpty = true
  · constructor
    · intro _
      exact Or.inr (Or.inl hcs)
    · intro c hc
      exfalso
      unfold find_best_match fuzzy_match at hc
      rw [if_pos (by simp [hcs])] at hc
      exact absurd hc (by simp)
  have hcsne : cs ≠ [] := by
    intro h
    rw [h] at hcs
    exact hcs rfl
  have hcond : ¬((q.isEmpty || cs.isEmpty) = true) := by
    simp [hq, hcs]
  have hslen : ((cs.map normalize_search).map
      (fun c => (c, fuzzScore (normalize_search q) c))).length = cs.length := by
    simp
  have hsne : ((cs.map normalize_search).map
      (fun c => (c, fuzzScore (normalize_search q) c))) ≠ [] := by
    intro h
    have := congrArg List.length h
    rw [hslen] at this
    exact hcsne (List.length_eq_zero.mp (by simpa using this))
  have hden : ∀ p ∈ ((cs.map normalize_search).map
      (fun c => (c, fuzzScore (normalize_search q) c))), 0 < p.2.den := by
    intro p hp
    rw [List.mem_map] at hp
    obtain ⟨c0, _, rfl⟩ := hp
    exact fuzzScore_den_pos _ _
  obtain ⟨i, hil0, hhead, hmax, hstrict⟩ :=
    sorted_head_earliest_max _ hsne hden
  rw [hslen] at hil0
  have hsg : ∀ j, j < cs.length →
      ((cs.map normalize_search).map
        (fun c => (c, fuzzScore (normalize_search q) c))).getD j ([], ⟨0, 1⟩)
      = (normalize_search (cs.getD j []), scoreOf q (cs.getD j [])) := by
    intro j hj
    rw [getD_map_lt (fun c => (c, fuzzScore (normalize_search q) c))
      (cs.map normalize_search) j [] ([], ⟨0, 1⟩) (by simpa using hj)]
    rw [getD_map_lt normalize_search cs j [] [] hj]
    rfl
  obtain ⟨srest, hs⟩ : ∃ srest,
      stableSortBy (fun p q => scoreLe q.2 p.2)
        ((cs.map normalize_search).map
          (fun c => (c, fuzzScore (normalize_search q) c)))
      = (((cs.map normalize_search).map
          (fun c => (c, fuzzScore (normalize_search q) c))).getD i ([], ⟨0, 1⟩))
        :: srest := by
    cases hss : stableSortBy (fun p q => scoreLe q.2 p.2)
        ((cs.map normalize_search).map
          (fun c => (c, fuzzScore (normalize_search q) c))) with
    | nil =>
      rw [hss] at hhead
      exact absurd hhead (by simp)
    | cons a r =>
      rw [hss] at hhead
      simp only [List.head?_cons, Option.some.injEq] at hhead
      exact ⟨r, by rw [hhead]⟩
  have hfm : fuzzy_match q cs t 1 =
      if scoreAtLeast (scoreOf q (cs.getD i [])) t = true then
        [(cs.getD (indexOfFirst (cs.map normalize_search)
            (normalize_search (cs.getD i []))) [],
          scoreOf q (cs.getD i []))]
      else [] := by
    unfold fuzzy_match
    rw [if_neg hcond]
    show ((((stableSortBy (fun p q => scoreLe q.2 p.2)
        ((cs.map normalize_search).map
          (fun c => (c, fuzzScore (normalize_search q) c)))).take 1).filter
        (fun m => scoreAtLeast m.2 t)).map
        (fun m => (cs.getD (indexOfFirst (cs.map normalize_search) m.1) [], m.2)))
      = _
    rw [hs, hsg i hil0]
    by_cases hth : scoreAtLeast (scoreOf q (cs.getD i [])) t = true
    · rw [if_pos hth]
      show (List.filter (fun m => scoreAtLeast m.2 t)
          [(normalize_search (cs.getD i []), scoreOf q (cs.getD i []))]).map
          (fun m => (cs.getD (indexOfFirst (cs.map normalize_search) m.1) [], m.2))
        = [(cs.getD (indexOfFirst (cs.map normalize_search)
            (normalize_search (cs.getD i []))) [], scoreOf q (cs.getD i []))]
      rw [List.filter_cons]
      dsimp only
      rw [hth]
      rfl
    · rw [if_neg hth]
      show (List.filter (fun m => scoreAtLeast m.2 t)
          [(normalize_search (cs.getD i []), scoreOf q (cs.getD i []))]).map
          (fun m => (cs.getD (indexOfFirst (cs.map normalize_search) m.1) [], m.2))
        = []
      rw [List.filter_cons]
      dsimp only
      rw [Bool.eq_false_iff.mpr hth]
      rfl
  constructor
  · intro hnone
    refine Or.inr (Or.inr ?_)
    intro c hc
    by_cases hth : scoreAtLeast (scoreOf q (cs.getD i [])) t = true
    · exfalso
      unfold find_best_match at hnone
      rw [hfm, if_pos hth] at hnone
      exact absurd hnone (by simp)
    · obtain ⟨j, hj, hgd⟩ := mem_imp_getD cs c [] hc
      have hle := hmax j (by rw [hslen]; exact hj)
      rw [hsg j hj, hsg i hil0] at hle
      dsimp only at hle
      have hsp : 0 < (scoreOf q (cs.getD j [])).den := fuzzScore_den_pos _ _
      have := scoreAtLeast_le (scoreOf q (cs.getD j []))
        (scoreOf q (cs.getD i [])) t hsp hle (Bool.eq_false_iff.mpr hth)
      rw [hgd] at this
      exact this
  · intro c hc
    by_cases hth : scoreAtLeast (scoreOf q (cs.getD i [])) t = true
    · unfold find_best_match at hc
      rw [hfm, if_pos hth] at hc
      simp only [Option.some.injEq] at hc
      have hvm : normalize_search (cs.getD i [])
          ∈ cs.map normalize_search := by
        have := getD_mem_of_lt cs i [] hil0
        exact List.mem_map_of_mem normalize_search this
      obtain ⟨hjlt, hjeq, hjmin⟩ :=
        indexOfFirst_spec (cs.map normalize_search)
          (normalize_search (cs.getD i [])) hvm
      have hj0cs : indexOfFirst (cs.map normalize_search)
          (normalize_search (cs.getD i [])) < cs.length := by
        simpa using hjlt
      have hnormeq : normalize_search (cs.getD
          (indexOfFirst (cs.map normalize_search)
            (normalize_search (cs.getD i []))) [])
          = normalize_search (cs.getD i []) := by
        rw [← getD_map_lt normalize_search cs _ [] [] hj0cs]
        exact hjeq
      have hscore_eq : scoreOf q (cs.getD
          (indexOfFirst (cs.map normalize_search)
            (normalize_search (cs.getD i []))) [])
          = scoreOf q (cs.getD i []) := by
        unfold scoreOf
        rw [hnormeq]
      have hj0i : indexOfFirst (cs.map normalize_search)
          (normalize_search (cs.getD i [])) = i := by
        rcases Nat.lt_or_ge (indexOfFirst (cs.map normalize_search)
            (normalize_search (cs.getD i []))) i with hlt | hge
        · exfalso
          have hst := hstrict _ hlt
          rw [hsg _ hj0cs, hsg i hil0] at hst
          dsimp only at hst
          rw [hscore_eq, scoreLe_refl] at hst
          exact absurd hst (by simp)
        · have hnoti : ¬ i < indexOfFirst (cs.map normalize_search)
              (normalize_search (cs.getD i [])) := by
            intro hlt
            exact hjmin i hlt (by
              rw [getD_map_lt normalize_search cs i [] [] hil0])
          omega
      refine ⟨i, hil0, ?_, ?_, ?_, ?_⟩
      · rw [← hc, hj0i]
      · rw [← hc, hj0i]
        exact hth
      · intro j hj
        have hle := hmax j (by rw [hslen]; exact hj)
        rw [hsg j hj, hsg i hil0] at hle
        dsimp only at hle
        rw [← hc, hj0i]
        exact hle
      · intro j hj
        have hst := hstrict j (by omega)
        rw [hsg j (by omega), hsg i hil0] at hst
        dsimp only at hst
        rw [← hc, hj0i]
        exact hst
    · exfalso
      unfold find_best_match at hc
      rw [hfm, if_neg hth] at hc
      exact absurd hc (by simp)

/-- C8 amended, witness: a concrete exact match above threshold. -/
theorem find_best_match_earliest_max_witness :
    find_best_match "barcelona".toList ["Barcelona".toList] 70
        = some "Barcelona".toList
    ∧ (∃ i, i < (["Barcelona".toList] : List (List Char)).length
        ∧ "Barcelona".toList = (["Barcelona".toList] : List (List Char)).getD i []
        ∧ scoreAtLeast (scoreOf "barcelona".toList "Barcelona".toList) 70 = true
        ∧ (∀ j, j < (["Barcelona".toList] : List (List Char)).length →
            scoreLe (scoreOf "barcelona".toList
              ((["Barcelona".toList] : List (List Char)).getD j []))
              (scoreOf "barcelona".toList "Barcelona".toList) = true)
        ∧ (∀ j, j < i →
            scoreLe (scoreOf "barcelona".toList "Barcelona".toList)
              (scoreOf "barcelona".toList
                ((["Barcelona".toList] : List (List Char)).getD j [])) = false)) :=
  ⟨by decide,
   (find_best_match_earliest_max "barcelona".toList ["Barcelona".toList] 70).2
     "Barcelona".toList (by decide)⟩

/-- C9 witness: a valid and an invalid record, applied to the theorem. -/
theorem scrape_validation_drops_invalid_witness :
    (scrape_validate
      [{ fecha := some "2026-01-01", descripcion := some "Año Nuevo",
         tipo := some "nacional", ambito := some "nacional" },
       { fecha := some "2026-13-01", descripcion := some "Mes imposible",
         tipo := some "nacional", ambito := some "nacional" }]).1
      = ([{ fecha := some "2026-01-01", descripcion := some "Año Nuevo",
            tipo := some "nacional", ambito := some "nacional" },
          { fecha := some "2026-13-01", descripcion := some "Mes imposible",
            tipo := some "nacional", ambito := some "nacional" }].filter
          (fun f => validate_festivo f))
    ∧ (scrape_validate
      [{ fecha := some "2026-01-01", descripcion := some "Año Nuevo",
         tipo := some "nacional", ambito := some "nacional" },
       { fecha := some "2026-13-01", descripcion := some "Mes imposible",
         tipo := some "nacional", ambito := some "nacional" }]).2
      = ([{ fecha := some "2026-01-01", descripcion := some "Año Nuevo",
            tipo := some "nacional", ambito := some "nacional" },
          { fecha := some "2026-13-01", descripcion := some "Mes imposible",
            tipo := some "nacional", ambito := some "nacional" }] : List Festivo).length
        - (scrape_validate
          [{ fecha := some "2026-01-01", descripcion := some "Año Nuevo",
             tipo := some "nacional", ambito := some "nacional" },
           { fecha := some "2026-13-01", descripcion := some "Mes imposible",
             tipo := some "nacional", ambito := some "nacional" }]).1.length :=
  ⟨(scrape_validation_drops_invalid _).1,
   (scrape_validation_drops_invalid _).2.2.2.1⟩

end Calendario
